import Mathlib

/-!
# SynXpo — verification of the server storage engine and client reconciler

Shallow embedding of the SynXpo file-synchronization core:

* `src/server/storage.cpp` — `Storage::CheckVersionIncrease`,
  `Storage::LockFilesForWrite`, `Storage::ApplyVersionIncrease`,
  `Storage::RollbackUpload`, `Storage::CheckStaleLocks`,
  `Storage::ReleaseLocks`;
* `src/server/service.cpp` — `SyncServiceImpl::HandleFileWrite`,
  `SyncServiceImpl::HandleFileWriteEnd`;
* `src/common/in_memory_file_storage.cpp` — `InMemoryFileMetadataStorage`;
* `src/client/synchronizer/synchronizer_download.cpp` —
  `Synchronizer::ProcessCheckVersion`, `Synchronizer::CalculateVersionDiff`,
  `Synchronizer::ApplyRenamesAndDeletes`.

`std::map<std::string, T>` fields are modelled as association lists with
lookup by first occurrence; `std::chrono` time points are `Nat`; byte
vectors are `List Nat`.
-/

set_option autoImplicit false

namespace SynXpo

/-! ## Association-list maps (model of `std::map<std::string, T>`) -/

/-- Lookup in an association list (first occurrence wins). -/
def lookupS {α : Type} : List (String × α) → String → Option α
  | [], _ => none
  | (k, v) :: rest, key => if k = key then some v else lookupS rest key

/-- `m[k] = v` on a `std::map`: replace the value in place if the key is
present, otherwise add the pair. -/
def insertS {α : Type} : List (String × α) → String → α → List (String × α)
  | [], k, v => [(k, v)]
  | (k', v') :: rest, k, v =>
      if k' = k then (k, v) :: rest else (k', v') :: insertS rest k v

/-- `m.erase(k)` on a `std::map`. -/
def eraseS {α : Type} (m : List (String × α)) (k : String) : List (String × α) :=
  m.filter (fun e => ¬ (e.1 = k))

@[simp] theorem lookupS_nil {α : Type} (k : String) : lookupS ([] : List (String × α)) k = none := rfl

theorem lookupS_cons {α : Type} (k' : String) (v' : α) (rest : List (String × α)) (k : String) :
    lookupS ((k', v') :: rest) k = if k' = k then some v' else lookupS rest k := rfl

@[simp] theorem lookupS_insertS_self {α : Type} (m : List (String × α)) (k : String) (v : α) :
    lookupS (insertS m k v) k = some v := by
  induction m with
  | nil => simp [insertS, lookupS]
  | cons e rest ih =>
      obtain ⟨k', v'⟩ := e
      by_cases h : k' = k
      · simp [insertS, h, lookupS]
      · simp [insertS, h, lookupS, ih]

theorem lookupS_insertS_ne {α : Type} (m : List (String × α)) (k k' : String) (v : α)
    (h : k ≠ k') : lookupS (insertS m k v) k' = lookupS m k' := by
  induction m with
  | nil => simp [insertS, lookupS, h]
  | cons e rest ih =>
      obtain ⟨k₀, v₀⟩ := e
      by_cases h₀ : k₀ = k
      · subst h₀
        simp [insertS, lookupS, h]
      · simp [insertS, h₀, lookupS, ih]

theorem eraseS_cons {α : Type} (k₀ : String) (v₀ : α) (rest : List (String × α)) (k : String) :
    eraseS ((k₀, v₀) :: rest) k
      = if k₀ = k then eraseS rest k else (k₀, v₀) :: eraseS rest k := by
  by_cases h : k₀ = k <;> simp [eraseS, List.filter_cons, h]

@[simp] theorem lookupS_eraseS_self {α : Type} (m : List (String × α)) (k : String) :
    lookupS (eraseS m k) k = none := by
  induction m with
  | nil => rfl
  | cons e rest ih =>
      obtain ⟨k', v'⟩ := e
      rw [eraseS_cons]
      by_cases h : k' = k
      · simpa [h] using ih
      · simpa [h, lookupS] using ih

theorem lookupS_eraseS_ne {α : Type} (m : List (String × α)) (k k' : String)
    (h : k ≠ k') : lookupS (eraseS m k) k' = lookupS m k' := by
  induction m with
  | nil => rfl
  | cons e rest ih =>
      obtain ⟨k₀, v₀⟩ := e
      rw [eraseS_cons]
      by_cases h₀ : k₀ = k
      · rw [if_pos h₀, ih, lookupS_cons, if_neg]
        intro hh
        exact h (h₀ ▸ hh)
      · rw [if_neg h₀, lookupS_cons, lookupS_cons, ih]

theorem lookupS_map {α β : Type} (g : String → α → β) (m : List (String × α)) (k : String) :
    lookupS (m.map fun e => (e.1, g e.1 e.2)) k = (lookupS m k).map (g k) := by
  induction m with
  | nil => rfl
  | cons e rest ih =>
      obtain ⟨k', v'⟩ := e
      by_cases h : k' = k
      · subst h
        simp [lookupS]
      · simp [lookupS, h, ih]

theorem mem_keys_insertS {α : Type} {l : List (String × α)} {k k' : String} {v : α}
    (h : k' ∈ (insertS l k v).map Prod.fst) : k' ∈ l.map Prod.fst ∨ k' = k := by
  induction l with
  | nil =>
      simp only [insertS, List.map_cons, List.map_nil, List.mem_singleton] at h
      exact Or.inr h
  | cons e2 t ih2 =>
      obtain ⟨k2, v2⟩ := e2
      by_cases h2 : k2 = k
      · subst h2
        simp only [insertS, if_pos, List.map_cons, List.mem_cons] at h
        simp only [List.map_cons, List.mem_cons]
        tauto
      · simp only [insertS, h2, if_false, List.map_cons, List.mem_cons] at h
        simp only [List.map_cons, List.mem_cons]
        rcases h with h | h
        · tauto
        · rcases ih2 h with h' | h' <;> tauto

theorem lookupS_mapF {α β : Type} (F : String × α → β) (m : List (String × α)) (k : String) :
    lookupS (m.map fun e => (e.1, F e)) k = (lookupS m k).map (fun v => F (k, v)) := by
  induction m with
  | nil => rfl
  | cons e rest ih =>
      obtain ⟨k', v'⟩ := e
      by_cases h : k' = k
      · subst h
        simp [lookupS]
      · simp [lookupS, h, ih]

theorem insertS_keys_nodup {α : Type} {m : List (String × α)} (k : String) (v : α)
    (h : (m.map Prod.fst).Nodup) : ((insertS m k v).map Prod.fst).Nodup := by
  induction m with
  | nil => simp [insertS]
  | cons e rest ih =>
      obtain ⟨k', v'⟩ := e
      simp only [List.map_cons, List.nodup_cons] at h
      by_cases hk : k' = k
      · subst hk
        simpa [insertS, List.nodup_cons] using h
      · simp only [insertS, hk, if_false, List.map_cons, List.nodup_cons]
        refine ⟨?_, ih h.2⟩
        intro hmem
        rcases mem_keys_insertS hmem with hc | hc
        · exact h.1 hc
        · exact hk hc

theorem lookupS_of_mem_nodup {α : Type} {m : List (String × α)} {k : String} {v : α}
    (hnd : (m.map Prod.fst).Nodup) (hm : (k, v) ∈ m) : lookupS m k = some v := by
  induction m with
  | nil => cases hm
  | cons e rest ih =>
      obtain ⟨k', v'⟩ := e
      simp only [List.map_cons, List.nodup_cons] at hnd
      rcases List.mem_cons.mp hm with hm | hm
      · cases hm
        simp [lookupS]
      · have hne : ¬ (k' = k) := by
          intro h
          subst h
          exact hnd.1 (by simpa using List.mem_map_of_mem Prod.fst hm)
        simp only [lookupS, hne, if_false]
        exact ih hnd.2 hm

theorem lookupS_mem {α : Type} {m : List (String × α)} {k : String} {v : α}
    (h : lookupS m k = some v) : (k, v) ∈ m := by
  induction m with
  | nil => simp [lookupS] at h
  | cons e rest ih =>
      obtain ⟨k', v'⟩ := e
      by_cases h' : k' = k
      · subst h'
        simp [lookupS] at h
        simp [h]
      · simp [lookupS, h'] at h
        exact List.mem_cons_of_mem _ (ih h)

/-! ## Data model (from `include/synxpo/server/storage.h` and the protobuf
message fields used by the code) -/

/-- `FileStatus` protobuf enum (values used: FREE, BLOCKED, DENIED). -/
inductive FileStatus where
  | FREE
  | BLOCKED
  | DENIED
deriving DecidableEq, Repr

/-- `FileType` protobuf enum. -/
inductive FileType where
  | FILE
  | DIRECTORY
deriving DecidableEq, Repr

/-- `LastTry` from `storage.h`: the last admitted version-increase attempt. -/
structure LastTry where
  time : Nat
  connection_id : String
deriving DecidableEq, Repr

/-- `StoredFile` from `storage.h`. -/
structure StoredFile where
  id : String
  directory_id : String
  version : Nat
  content_changed_version : Nat
  ftype : FileType
  current_path : String
  deleted : Bool
  content : List Nat
  status : FileStatus
  locked_by_client : String
  lock_time : Nat
  is_being_read : Bool
  last_try : LastTry
deriving DecidableEq, Repr

/-- `Directory` from `storage.h`. -/
structure Directory where
  id : String
  files : List (String × StoredFile)
  path_to_id : List (String × String)
deriving DecidableEq, Repr

/-- `VersionCheckResult` from `storage.h`. -/
structure VersionCheckResult where
  file_id : String
  status : FileStatus
  directory_id : String
deriving DecidableEq, Repr

/-- One entry of the `AskVersionIncrease` protobuf message (the fields the
server reads: `id`, `directory_id`, `current_path`, `type`, `deleted`,
`content_changed`, `first_try_time.time`). -/
structure FileInfo where
  id : String
  directory_id : String
  current_path : String
  ftype : FileType
  deleted : Bool
  content_changed : Bool
  first_try_time : Nat
deriving DecidableEq, Repr

/-- `AskVersionIncrease` protobuf message. -/
structure AskVersionIncrease where
  files : List FileInfo
deriving DecidableEq, Repr

/-- `FileMetadata` protobuf message (fields set by the server). -/
structure FileMetadata where
  id : String
  directory_id : String
  version : Nat
  content_changed_version : Nat
  ftype : FileType
  current_path : String
  deleted : Bool
deriving DecidableEq, Repr

/-- The in-memory state of `Storage`: `directories_` and `backups_`. -/
structure StorageState where
  directories : List (String × Directory)
  backups : List (String × List (String × StoredFile))
deriving DecidableEq, Repr

/-- Look up a file record: `directories_[d].files[fid]`. -/
def fileOf (s : StorageState) (d fid : String) : Option StoredFile :=
  (lookupS s.directories d).bind fun dir => lookupS dir.files fid

/-- `FileMetadata` built from a `StoredFile` the way `ApplyVersionIncrease`
fills `meta`. -/
def metaOf (f : StoredFile) : FileMetadata :=
  { id := f.id, directory_id := f.directory_id, version := f.version,
    content_changed_version := f.content_changed_version, ftype := f.ftype,
    current_path := f.current_path, deleted := f.deleted }

/-! ## `Storage::CheckVersionIncrease` (`storage.cpp:247-341`) -/

/-- File resolution used by `CheckVersionIncrease`: try `files[id]` when the
request carries an id, and fall back to the `(dir, current_path)` index when
that lookup did not find a file. -/
def resolveCheck (dir : Directory) (fi : FileInfo) : Option (String × StoredFile) :=
  match (if fi.id ≠ "" then lookupS dir.files fi.id else none) with
  | some f => some (fi.id, f)
  | none =>
      if fi.current_path ≠ "" then
        match lookupS dir.path_to_id fi.current_path with
        | some pid =>
            match lookupS dir.files pid with
            | some f => some (pid, f)
            | none => none
        | none => none
      else none

/-- Overwrite one file's `last_try` (the only mutation `CheckVersionIncrease`
performs, in its FREE branch). -/
def setLastTry (s : StorageState) (d fid : String) (t : Nat) (client : String) : StorageState :=
  match lookupS s.directories d with
  | none => s
  | some dir =>
      match lookupS dir.files fid with
      | none => s
      | some f =>
          let f' := { f with last_try := { time := t, connection_id := client } }
          let dir' := { dir with files := insertS dir.files fid f' }
          { s with directories := insertS s.directories d dir' }

/-- One iteration of the `CheckVersionIncrease` loop. -/
def checkOne (client : String) (s : StorageState) (fi : FileInfo) :
    VersionCheckResult × StorageState :=
  match lookupS s.directories fi.directory_id with
  | none =>
      ({ file_id := "", status := .DENIED, directory_id := fi.directory_id }, s)
  | some dir =>
      match resolveCheck dir fi with
      | none =>
          ({ file_id := "", status := .FREE, directory_id := fi.directory_id }, s)
      | some (fid, f) =>
          if fi.first_try_time < f.last_try.time then
            ({ file_id := fid, status := .DENIED, directory_id := fi.directory_id }, s)
          else if f.last_try.time < fi.first_try_time ∨
              (f.last_try.time = fi.first_try_time ∧ f.last_try.connection_id = client) then
            if f.status = .BLOCKED ∧ f.locked_by_client ≠ client then
              ({ file_id := fid, status := .BLOCKED, directory_id := fi.directory_id }, s)
            else if f.is_being_read then
              ({ file_id := fid, status := .BLOCKED, directory_id := fi.directory_id }, s)
            else
              ({ file_id := fid, status := .FREE, directory_id := fi.directory_id },
               setLastTry s fi.directory_id fid fi.first_try_time client)
          else
            ({ file_id := fid, status := .DENIED, directory_id := fi.directory_id }, s)

/-- `Storage::CheckVersionIncrease`. -/
def checkVersionIncrease (client : String) (req : AskVersionIncrease) (s : StorageState) :
    List VersionCheckResult × StorageState :=
  req.files.foldl
    (fun acc fi =>
      let (r, s') := checkOne client acc.2 fi
      (acc.1 ++ [r], s'))
    ([], s)

/-! ## `Storage::LockFilesForWrite` (`storage.cpp:343-377`) -/

/-- File resolution used by `LockFilesForWrite` and `ApplyVersionIncrease`:
unlike `CheckVersionIncrease`, the path index is consulted only when the
request carries no id at all (`else if` in the source). -/
def resolveLockApply (dir : Directory) (fi : FileInfo) : Option (String × StoredFile) :=
  if fi.id ≠ "" then
    match lookupS dir.files fi.id with
    | some f => some (fi.id, f)
    | none => none
  else if fi.current_path ≠ "" then
    match lookupS dir.path_to_id fi.current_path with
    | some pid =>
        match lookupS dir.files pid with
        | some f => some (pid, f)
        | none => none
    | none => none
  else none

/-- One iteration of the `LockFilesForWrite` loop: back the record up under
`backups_[client][file.id]`, then mark it blocked-for-write. -/
def lockOne (client : String) (now : Nat) (s : StorageState) (fi : FileInfo) : StorageState :=
  match lookupS s.directories fi.directory_id with
  | none => s
  | some dir =>
      match resolveLockApply dir fi with
      | none => s
      | some (fid, f) =>
          let bmap := (lookupS s.backups client).getD []
          let f' := { f with status := FileStatus.BLOCKED, locked_by_client := client,
                             lock_time := now }
          let dir' := { dir with files := insertS dir.files fid f' }
          { directories := insertS s.directories fi.directory_id dir',
            backups := insertS s.backups client (insertS bmap fid f) }

/-- `Storage::LockFilesForWrite`. -/
def lockFilesForWrite (client : String) (req : AskVersionIncrease) (now : Nat)
    (s : StorageState) : StorageState :=
  req.files.foldl (lockOne client now) s

/-! ## `Storage::ApplyVersionIncrease` (`storage.cpp:379-532`)

`GenerateUuid()` is modelled by an oracle `fresh : Nat → String` consumed at
an index threaded through the loop. -/

/-- One iteration of the `ApplyVersionIncrease` loop. -/
def applyOne (client : String) (contents : List (String × List Nat)) (fresh : Nat → String)
    (s : StorageState) (k : Nat) (fi : FileInfo) :
    StorageState × Nat × Option FileMetadata :=
  match lookupS s.directories fi.directory_id with
  | none => (s, k, none)
  | some dir =>
      match resolveLockApply dir fi with
      | some (fid, f) =>
          let version' := f.version + 1
          let ccv' := if fi.content_changed then version' else f.content_changed_version
          let content' :=
            if fi.content_changed then
              match lookupS contents f.id with
              | some bytes => bytes
              | none =>
                  match lookupS contents fi.current_path with
                  | some bytes => bytes
                  | none => f.content
            else f.content
          let f' : StoredFile :=
            { f with version := version', content_changed_version := ccv',
                     content := content', current_path := fi.current_path,
                     ftype := fi.ftype, status := .FREE, locked_by_client := "",
                     deleted := fi.deleted }
          let p1 :=
            if f.current_path ≠ fi.current_path then eraseS dir.path_to_id f.current_path
            else dir.path_to_id
          let p2 :=
            if fi.deleted then eraseS p1 fi.current_path
            else insertS p1 fi.current_path fid
          let dir' := { dir with files := insertS dir.files fid f', path_to_id := p2 }
          ({ s with directories := insertS s.directories fi.directory_id dir' },
           k, some (metaOf f'))
      | none =>
          let nid := fresh k
          let nf : StoredFile :=
            { id := nid, directory_id := fi.directory_id, version := 1,
              content_changed_version := if fi.content_changed then 1 else 0,
              ftype := fi.ftype, current_path := fi.current_path,
              deleted := fi.deleted,
              content :=
                if fi.content_changed then (lookupS contents fi.current_path).getD []
                else [],
              status := .FREE, locked_by_client := "", lock_time := 0,
              is_being_read := false,
              last_try := { time := fi.first_try_time, connection_id := client } }
          let dir' :=
            { dir with files := insertS dir.files nid nf,
                       path_to_id :=
                         if nf.deleted then dir.path_to_id
                         else insertS dir.path_to_id nf.current_path nid }
          ({ s with directories := insertS s.directories fi.directory_id dir' },
           k + 1, some (metaOf nf))

/-- One `foldl` step of `ApplyVersionIncrease`: run `applyOne` and append the
returned metadata to the `updated_files` accumulator. -/
def applyStep (client : String) (contents : List (String × List Nat)) (fresh : Nat → String)
    (acc : StorageState × Nat × List FileMetadata) (fi : FileInfo) :
    StorageState × Nat × List FileMetadata :=
  let r := applyOne client contents fresh acc.1 acc.2.1 fi
  (r.1, r.2.1, acc.2.2 ++ r.2.2.toList)

/-- `Storage::ApplyVersionIncrease`: process every request entry, then drop
`backups_[client]`. -/
def applyVersionIncrease (client : String) (req : AskVersionIncrease)
    (contents : List (String × List Nat)) (fresh : Nat → String) (s : StorageState) :
    List FileMetadata × StorageState :=
  let r := req.files.foldl (applyStep client contents fresh) (s, 0, [])
  (r.2.2, { r.1 with backups := eraseS r.1.backups client })

/-! ## `Storage::RollbackUpload` (`storage.cpp:534-573`) -/

/-- Restore one backup snapshot over the live record (skipping it when the
directory or the file no longer exists). -/
def restoreBackup (s : StorageState) (e : String × StoredFile) : StorageState :=
  match lookupS s.directories e.2.directory_id with
  | none => s
  | some dir =>
      match lookupS dir.files e.1 with
      | none => s
      | some _ =>
          let dir' := { dir with files := insertS dir.files e.1 e.2 }
          { s with directories := insertS s.directories e.2.directory_id dir' }

/-- The second loop of `RollbackUpload`: clear the write lock of a request
file, located by id only, when this client still holds it. -/
def unlockOne (client : String) (s : StorageState) (fi : FileInfo) : StorageState :=
  match lookupS s.directories fi.directory_id with
  | none => s
  | some dir =>
      match (if fi.id ≠ "" then lookupS dir.files fi.id else none) with
      | none => s
      | some f =>
          if f.locked_by_client = client then
            let f' := { f with status := FileStatus.FREE, locked_by_client := "" }
            let dir' := { dir with files := insertS dir.files fi.id f' }
            { s with directories := insertS s.directories fi.directory_id dir' }
          else s

/-- `Storage::RollbackUpload`. -/
def rollbackUpload (client : String) (req : AskVersionIncrease) (s : StorageState) :
    StorageState :=
  let s1 :=
    match lookupS s.backups client with
    | none => s
    | some bmap =>
        let s' := bmap.foldl restoreBackup s
        { s' with backups := eraseS s'.backups client }
  req.files.foldl (unlockOne client) s1

/-! ## `Storage::ReleaseLocks` and `Storage::CheckStaleLocks`
(`storage.cpp:644-681`) -/

/-- `Storage::ReleaseLocks`: clear every write lock held by the client and
drop its backups. -/
def releaseLocks (client : String) (s : StorageState) : StorageState :=
  { directories :=
      s.directories.map fun e =>
        (e.1, { e.2 with files :=
                  e.2.files.map fun e2 =>
                    (e2.1,
                     if e2.2.locked_by_client = client then
                       { e2.2 with status := FileStatus.FREE, locked_by_client := "" }
                     else e2.2) }),
    backups := eraseS s.backups client }

/-- `Storage::CheckStaleLocks`: release every blocked-for-write lock older
than the timeout. -/
def checkStaleLocks (now timeout : Nat) (s : StorageState) : StorageState :=
  { s with directories :=
      s.directories.map fun e =>
        (e.1, { e.2 with files :=
                  e.2.files.map fun e2 =>
                    (e2.1,
                     if e2.2.status = FileStatus.BLOCKED ∧ timeout < now - e2.2.lock_time then
                       { e2.2 with status := FileStatus.FREE, locked_by_client := "" }
                     else e2.2) }) }

/-! ## Operation sequences over the storage engine -/

/-- The storage mutations reachable through the service layer. -/
inductive StorageOp where
  | checkOp (client : String) (req : AskVersionIncrease)
  | lockOp (client : String) (req : AskVersionIncrease) (now : Nat)
  | applyOp (client : String) (req : AskVersionIncrease)
      (contents : List (String × List Nat)) (fresh : Nat → String)
  | rollbackOp (client : String) (req : AskVersionIncrease)
  | staleOp (now timeout : Nat)
  | releaseOp (client : String)

/-- Run one storage operation (discarding the returned results). -/
def runOp : StorageOp → StorageState → StorageState
  | .checkOp client req, s => (checkVersionIncrease client req s).2
  | .lockOp client req now, s => lockFilesForWrite client req now s
  | .applyOp client req contents fresh, s => (applyVersionIncrease client req contents fresh s).2
  | .rollbackOp client req, s => rollbackUpload client req s
  | .staleOp now timeout, s => checkStaleLocks now timeout s
  | .releaseOp client, s => releaseLocks client s

/-- Run a sequence of storage operations. -/
def runOps (ops : List StorageOp) (s : StorageState) : StorageState :=
  ops.foldl (fun s op => runOp op s) s

/-- The stored `last_try.time` of a file, when the file exists. -/
def lastTryTime (s : StorageState) (d fid : String) : Option Nat :=
  (fileOf s d fid).map fun f => f.last_try.time

/-- Whether an operation is a `RollbackUpload`. -/
def StorageOp.isRollback : StorageOp → Bool
  | .rollbackOp _ _ => true
  | _ => false

/-! ## `SyncServiceImpl::HandleFileWrite` / `HandleFileWriteEnd`
(`service.cpp:284-379`) -/

/-- `FileChunk` protobuf message (fields the server reads). -/
structure FileChunk where
  id : String
  directory_id : String
  current_path : String
  offset : Nat
  data : List Nat
deriving DecidableEq, Repr

/-- `PendingUpload` from `service.h`. -/
structure PendingUpload where
  request : AskVersionIncrease
  file_contents : List (String × List Nat)
  last_write_time : Nat
  received_first_write : Bool
deriving Repr

/-- Server-to-client messages emitted by the file-write handlers. -/
inductive ServerMsg where
  | versionIncreased (files : List FileMetadata)
  | errorMsg (text : String)
deriving DecidableEq, Repr

/-- The chunk-to-buffer key chosen by `HandleFileWrite`: `current_path` when
present, else the chunk `id`, else the first content-changing non-deleted
file of the pending request. -/
def chunkFileKey (chunk : FileChunk) (reqFiles : List FileInfo) : String :=
  if chunk.current_path ≠ "" then chunk.current_path
  else if chunk.id ≠ "" then chunk.id
  else
    match reqFiles.find? (fun f => f.content_changed ∧ ¬ f.deleted) with
    | some f => f.current_path
    | none => ""

/-- The conditional `content.resize(chunk.offset() + data.size())` of
`HandleFileWrite`: the buffer grows (zero-filled, as `std::vector::resize`
does) only when `offset >= content.size()`. -/
def resizeForChunk (content : List Nat) (offset dataLen : Nat) : List Nat :=
  if content.length ≤ offset then
    content ++ List.replicate (offset + dataLen - content.length) 0
  else content

/-- `std::copy(data.begin(), data.end(), content.begin() + offset)` under the
assumption that the write stays inside the buffer. -/
def copyInBounds (buf : List Nat) (offset : Nat) (data : List Nat) : List Nat :=
  buf.take offset ++ data ++ buf.drop (offset + data.length)

/-- The buffer update performed by `HandleFileWrite` for one chunk. `none`
marks the case where `std::copy` would run past the end of the buffer, which
is undefined behaviour in the source. -/
def writeChunkToBuffer (content : List Nat) (offset : Nat) (data : List Nat) :
    Option (List Nat) :=
  let resized := resizeForChunk content offset data.length
  if offset + data.length ≤ resized.length then some (copyInBounds resized offset data)
  else none

/-- `SyncServiceImpl::HandleFileWrite`. The outer `none` marks the
out-of-bounds copy (undefined behaviour); otherwise the handler returns the
new pending upload, the unchanged storage, and the (empty) list of messages
written to the stream. -/
def handleFileWrite (chunk : FileChunk) (now : Nat)
    (pending : Option PendingUpload) (s : StorageState) :
    Option (Option PendingUpload × StorageState × List ServerMsg) :=
  match pending with
  | none => some (none, s, [])
  | some p =>
      let p := { p with received_first_write := true, last_write_time := now }
      let key := chunkFileKey chunk p.request.files
      if key = "" then some (some p, s, [])
      else
        let content := (lookupS p.file_contents key).getD []
        match writeChunkToBuffer content chunk.offset chunk.data with
        | none => none
        | some buf =>
            some (some { p with file_contents := insertS p.file_contents key buf }, s, [])

/-- `SyncServiceImpl::HandleFileWriteEnd`: without a pending upload the
message is ignored; otherwise the pending request is committed and a
`VERSION_INCREASED` reply is written. -/
def handleFileWriteEnd (client : String) (fresh : Nat → String)
    (pending : Option PendingUpload) (s : StorageState) :
    Option PendingUpload × StorageState × List ServerMsg :=
  match pending with
  | none => (none, s, [])
  | some p =>
      let (metas, s') := applyVersionIncrease client p.request p.file_contents fresh s
      (none, s', [ServerMsg.versionIncreased metas])

/-! ## `InMemoryFileMetadataStorage` (`in_memory_file_storage.cpp`) -/

/-- The error kinds of `absl::Status` raised by the metadata store. -/
inductive StoreError where
  | notFound (msg : String)
  | invalidArgument (msg : String)
  | internalError (msg : String)
deriving DecidableEq, Repr

/-- `DirectoryInfo` from `in_memory_file_storage.h`. -/
structure DirectoryInfo where
  path : String
  files : List (String × FileMetadata)
  path_to_id : List (String × String)
deriving DecidableEq, Repr

/-- The in-memory metadata store state. -/
structure InMemoryStore where
  directories : List (String × DirectoryInfo)
deriving DecidableEq, Repr

/-- `InMemoryFileMetadataStorage::RegisterDirectory`. -/
def registerDirectory (st : InMemoryStore) (dirId dirPath : String) : InMemoryStore :=
  { directories :=
      insertS st.directories dirId { path := dirPath, files := [], path_to_id := [] } }

/-- `InMemoryFileMetadataStorage::UpsertFile`. The path mapping of the old
record is removed when the path changed, then the record and the
`(path → id)` mapping are installed — unconditionally, also for records with
`deleted = true`. -/
def upsertFile (st : InMemoryStore) (m : FileMetadata) : Except StoreError InMemoryStore :=
  if m.id = "" then .error (.invalidArgument "File ID is required")
  else if m.directory_id = "" then .error (.invalidArgument "Directory ID is required")
  else
    match lookupS st.directories m.directory_id with
    | none => .error (.notFound ("Directory not found: " ++ m.directory_id))
    | some dirInfo =>
        let p0 :=
          match lookupS dirInfo.files m.id with
          | some old =>
              if old.current_path ≠ m.current_path then
                eraseS dirInfo.path_to_id old.current_path
              else dirInfo.path_to_id
          | none => dirInfo.path_to_id
        let dirInfo' :=
          { dirInfo with files := insertS dirInfo.files m.id m,
                         path_to_id := insertS p0 m.current_path m.id }
        .ok { directories := insertS st.directories m.directory_id dirInfo' }

/-- `InMemoryFileMetadataStorage::RemoveFile`. -/
def removeFile (st : InMemoryStore) (dirId fid : String) : Except StoreError InMemoryStore :=
  match lookupS st.directories dirId with
  | none => .error (.notFound ("Directory not found: " ++ dirId))
  | some dirInfo =>
      match lookupS dirInfo.files fid with
      | none => .error (.notFound ("File not found: " ++ fid))
      | some m =>
          let dirInfo' :=
            { dirInfo with path_to_id := eraseS dirInfo.path_to_id m.current_path,
                           files := eraseS dirInfo.files fid }
          .ok { directories := insertS st.directories dirId dirInfo' }

/-- `InMemoryFileMetadataStorage::GetFileMetadata` (by id). -/
def getFileMetadataById (st : InMemoryStore) (dirId fid : String) :
    Except StoreError FileMetadata :=
  match lookupS st.directories dirId with
  | none => .error (.notFound ("Directory not found: " ++ dirId))
  | some dirInfo =>
      match lookupS dirInfo.files fid with
      | none => .error (.notFound ("File not found: " ++ fid))
      | some m => .ok m

/-- `InMemoryFileMetadataStorage::GetFileMetadata` (by path): resolve the
path through `path_to_id`, then return the record — with no check of its
`deleted` flag. -/
def getFileMetadataByPath (st : InMemoryStore) (dirId p : String) :
    Except StoreError FileMetadata :=
  match lookupS st.directories dirId with
  | none => .error (.notFound ("Directory not found: " ++ dirId))
  | some dirInfo =>
      match lookupS dirInfo.path_to_id p with
      | none => .error (.notFound ("File not found at path: " ++ p))
      | some fid =>
          match lookupS dirInfo.files fid with
          | none => .error (.internalError "Inconsistent state: path mapping exists but file not found")
          | some m => .ok m

/-- Whether a metadata-store result is a NotFound error. -/
def isNotFound {α : Type} : Except StoreError α → Bool
  | .error (.notFound _) => true
  | _ => false

/-! ## Client reconciler: `Synchronizer::CalculateVersionDiff` and
`Synchronizer::ProcessCheckVersion` (`synchronizer_download.cpp:34-162`) -/

/-- `Synchronizer::VersionDiff`. -/
structure VersionDiff where
  to_download : List FileMetadata
  to_rename_delete : List FileMetadata
  to_upload : List FileMetadata
  to_delete_local : List String
deriving DecidableEq, Repr

/-- `Synchronizer::CalculateVersionDiff`. `local_files` stands for the result
of `storage_.ListDirectoryFiles(directory_id)`. The C++ leftover loop runs
over an `unordered_map` in unspecified order; it is modelled in insertion
order, which the order-insensitive theorems below do not depend on. -/
def calculateVersionDiff (server_files local_files : List FileMetadata) : VersionDiff :=
  let localMap0 : List (String × FileMetadata) :=
    local_files.foldl (fun m f => insertS m f.id f) []
  let r :=
    server_files.foldl
      (fun (acc : VersionDiff × List (String × FileMetadata)) sf =>
        let diff := acc.1
        let lm := acc.2
        match lookupS lm sf.id with
        | none =>
            ({ diff with
                to_download :=
                  diff.to_download ++ (if 0 < sf.content_changed_version then [sf] else []),
                to_rename_delete := diff.to_rename_delete ++ [sf] }, lm)
        | some lf =>
            ({ diff with
                to_download :=
                  diff.to_download ++
                    (if lf.content_changed_version < sf.content_changed_version then [sf] else []),
                to_rename_delete :=
                  diff.to_rename_delete ++
                    (if sf.current_path ≠ lf.current_path ∨ sf.deleted ≠ lf.deleted then [sf] else []),
                to_upload := diff.to_upload ++ (if sf.version < lf.version then [lf] else []) },
             eraseS lm sf.id))
      ({ to_download := [], to_rename_delete := [], to_upload := [], to_delete_local := [] },
       localMap0)
  r.2.foldl
    (fun diff e =>
      if 0 < e.2.version then { diff with to_delete_local := diff.to_delete_local ++ [e.1] }
      else { diff with to_upload := diff.to_upload ++ [e.2] })
    r.1

/-- The four phases `Synchronizer::ProcessCheckVersion` can run. -/
inductive SyncPhase where
  | renameDelete
  | download
  | deleteLocal
  | upload
deriving DecidableEq, Repr

/-- The phases `ProcessCheckVersion` executes, in source order: renames and
soft-deletes, then content downloads, then local deletions, then uploads —
each phase only when its diff component is non-empty. -/
def processCheckVersionPhases (server_files local_files : List FileMetadata) :
    List SyncPhase :=
  let diff := calculateVersionDiff server_files local_files
  (if diff.to_rename_delete.isEmpty then [] else [SyncPhase.renameDelete])
    ++ (if diff.to_download.isEmpty then [] else [SyncPhase.download])
    ++ (if diff.to_delete_local.isEmpty then [] else [SyncPhase.deleteLocal])
    ++ (if diff.to_upload.isEmpty then [] else [SyncPhase.upload])

/-- Order-preserving sub-list test (used to state "the phases run in this
relative order"). -/
def isSublist : List SyncPhase → List SyncPhase → Bool
  | [], _ => true
  | _ :: _, [] => false
  | a :: as, b :: bs => if a = b then isSublist as bs else isSublist (a :: as) bs

/-- Observable actions of `Synchronizer::ApplyRenamesAndDeletes`. -/
inductive ClientEvent where
  | blockPaths (ps : List String)
  | backupAndDelete (p : String)
  | backupAndRename (src dst : String)
  | upsertLocal (m : FileMetadata)
  | unblockPaths (ps : List String)
deriving DecidableEq, Repr

/-- `*dir_path / rel_path`. -/
def joinPath (d p : String) : String := d ++ "/" ++ p

/-- The `affected_files` list collected by `ApplyRenamesAndDeletes` before
any mutation. `fs` stands for the set of paths for which
`std::filesystem::exists` holds. -/
def affectedFiles (st : InMemoryStore) (dirId dirPath : String) (fs : List String)
    (files : List FileMetadata) : List String :=
  files.foldl
    (fun acc fm =>
      let fp := joinPath dirPath fm.current_path
      if fm.deleted then (if fs.contains fp then acc ++ [fp] else acc)
      else
        match getFileMetadataById st dirId fm.id with
        | .ok lm =>
            let op := joinPath dirPath lm.current_path
            if op ≠ fp ∧ fs.contains op then acc ++ [op, fp] else acc
        | .error _ => acc)
    []

/-- The second loop of `ApplyRenamesAndDeletes`: per file, delete or rename
on the filesystem when applicable, then upsert the server record into the
local metadata store; the filesystem and store states are threaded through. -/
def applyRenamesAndDeletesOps (st : InMemoryStore) (dirId dirPath : String)
    (fs : List String) (files : List FileMetadata) :
    List ClientEvent × InMemoryStore × List String :=
  files.foldl
    (fun acc fm =>
      let evs := acc.1
      let st0 := acc.2.1
      let fs0 := acc.2.2
      let fp := joinPath dirPath fm.current_path
      let step :=
        if fm.deleted then
          if fs0.contains fp then
            (evs ++ [ClientEvent.backupAndDelete fp], st0, fs0.filter (fun q => ¬ (q = fp)))
          else (evs, st0, fs0)
        else
          match getFileMetadataById st0 dirId fm.id with
          | .ok lm =>
              let op := joinPath dirPath lm.current_path
              if op ≠ fp ∧ fs0.contains op then
                (evs ++ [ClientEvent.backupAndRename op fp], st0,
                 fs0.filter (fun q => ¬ (q = op)) ++ [fp])
              else (evs, st0, fs0)
          | .error _ => (evs, st0, fs0)
      let st2 :=
        match upsertFile step.2.1 fm with
        | .ok st' => st'
        | .error _ => step.2.1
      (step.1 ++ [ClientEvent.upsertLocal fm], st2, step.2.2))
    ([], st, fs)

/-- The full observable trace of `ApplyRenamesAndDeletes`: block the affected
paths (adding them to `files_being_written`), run the per-file operations,
then unblock the affected paths. -/
def applyRenamesAndDeletesTrace (st : InMemoryStore) (dirId dirPath : String)
    (fs : List String) (files : List FileMetadata) : List ClientEvent :=
  let affected := affectedFiles st dirId dirPath fs files
  (if affected.isEmpty then [] else [ClientEvent.blockPaths affected])
    ++ (applyRenamesAndDeletesOps st dirId dirPath fs files).1
    ++ (if affected.isEmpty then [] else [ClientEvent.unblockPaths affected])

/-! ## Specification-side definitions for the `CheckVersionIncrease`
refinement (C1). These two definitions follow the wording of the
specification's arbitration rule, not the source's control flow; the
refinement theorem compares them with `checkOne`. -/

/-- Spec wording: locate the file by id when the request carries one,
otherwise by `(dir_id, current_path)`. -/
def specFindFile (dir : Directory) (fi : FileInfo) : Option (String × StoredFile) :=
  match (if fi.id ≠ "" then (lookupS dir.files fi.id).map (fun f => (fi.id, f)) else none) with
  | some r => some r
  | none =>
      if fi.current_path ≠ "" then
        (lookupS dir.path_to_id fi.current_path).bind fun pid =>
          (lookupS dir.files pid).map fun f => (pid, f)
      else none

/-- Spec wording of the per-file arbitration outcome: unknown directory is
DENIED; an unknown file is FREE; `last_try.T > T_req` is DENIED;
`last_try.T = T_req` with a different client is DENIED; a client with
priority finds BLOCKED when the file is write-locked by a different client
or is being read; otherwise FREE. -/
def checkStatusSpec (client : String) (s : StorageState) (fi : FileInfo) : FileStatus :=
  match lookupS s.directories fi.directory_id with
  | none => .DENIED
  | some dir =>
      match specFindFile dir fi with
      | none => .FREE
      | some (_, f) =>
          if fi.first_try_time < f.last_try.time then .DENIED
          else if f.last_try.time = fi.first_try_time ∧ f.last_try.connection_id ≠ client then
            .DENIED
          else if (f.status = .BLOCKED ∧ f.locked_by_client ≠ client) ∨ f.is_being_read then
            .BLOCKED
          else .FREE

/-- Spec wording of the side effect: exactly in the FREE case of an existing
file, `last_try` becomes `(T_req, client)`; everything else is untouched. -/
def checkEffectSpec (client : String) (s : StorageState) (fi : FileInfo) : StorageState :=
  match lookupS s.directories fi.directory_id with
  | none => s
  | some dir =>
      match specFindFile dir fi with
      | none => s
      | some (fid, _) =>
          if checkStatusSpec client s fi = .FREE then
            setLastTry s fi.directory_id fid fi.first_try_time client
          else s

/-! ## C1 — the conflict arbiter refines its specification -/

/-- The resolution the source performs (`resolveCheck`) and the resolution in
the specification's words (`specFindFile`) agree. -/
theorem resolveCheck_eq_spec (dir : Directory) (fi : FileInfo) :
    resolveCheck dir fi = specFindFile dir fi := by
  unfold resolveCheck specFindFile
  by_cases h : fi.id ≠ ""
  · simp only [if_pos h]
    cases hf : lookupS dir.files fi.id with
    | some f => simp
    | none =>
        simp only [Option.map_none']
        by_cases hp : fi.current_path ≠ ""
        · simp only [if_pos hp]
          cases hpid : lookupS dir.path_to_id fi.current_path with
          | none => simp
          | some pid =>
              cases hfp : lookupS dir.files pid with
              | none => simp [hfp]
              | some f => simp [hfp]
        · simp [hp]
  · simp only [if_neg h]
    by_cases hp : fi.current_path ≠ ""
    · simp only [if_pos hp]
      cases hpid : lookupS dir.path_to_id fi.current_path with
      | none => simp
      | some pid =>
          cases hfp : lookupS dir.files pid with
          | none => simp [hfp]
          | some f => simp [hfp]
    · simp [hp]

/-- C1: per referenced file, `CheckVersionIncrease` behaves exactly as
specified — DENIED for an unknown directory, FREE with empty `file_id` for a
file found neither by id nor by path, DENIED when the stored `last_try.time`
exceeds the request's `first_try_time` or equals it with a different client,
BLOCKED when the client has priority but the file is write-locked by a
different client or being read, FREE otherwise; and exactly in the FREE case
of an existing file `last_try` is updated to `(first_try_time, client)`. -/
theorem checkVersionIncrease_per_file_spec (client : String) (s : StorageState) (fi : FileInfo) :
    (checkOne client s fi).1.status = checkStatusSpec client s fi
    ∧ (checkOne client s fi).1.directory_id = fi.directory_id
    ∧ (checkOne client s fi).2 = checkEffectSpec client s fi
    ∧ (lookupS s.directories fi.directory_id = none → (checkOne client s fi).1.file_id = "")
    ∧ (∀ dir, lookupS s.directories fi.directory_id = some dir →
        (checkOne client s fi).1.file_id =
          (match specFindFile dir fi with | some (fid, _) => fid | none => "")) := by
  cases hdir : lookupS s.directories fi.directory_id with
  | none => simp [checkOne, checkStatusSpec, checkEffectSpec, hdir]
  | some dir =>
      cases hres : specFindFile dir fi with
      | none =>
          simp [checkOne, checkStatusSpec, checkEffectSpec, hdir, hres, resolveCheck_eq_spec]
      | some pf =>
          obtain ⟨fid, f⟩ := pf
          by_cases h1 : fi.first_try_time < f.last_try.time
          · simp [checkOne, checkStatusSpec, checkEffectSpec, hdir, hres,
              resolveCheck_eq_spec, h1]
          · by_cases h2 : f.last_try.time < fi.first_try_time ∨
                (f.last_try.time = fi.first_try_time ∧ f.last_try.connection_id = client)
            · have hne : ¬ (f.last_try.time = fi.first_try_time ∧
                  f.last_try.connection_id ≠ client) := by
                rcases h2 with h2 | ⟨he, hc⟩
                · rintro ⟨he, _⟩
                  omega
                · rintro ⟨_, hc'⟩
                  exact hc' hc
              by_cases h3 : f.status = FileStatus.BLOCKED ∧ f.locked_by_client ≠ client
              · simp [checkOne, checkStatusSpec, checkEffectSpec, hdir, hres,
                  resolveCheck_eq_spec, h1, h2, hne, h3]
              · by_cases h4 : f.is_being_read
                · simp [checkOne, checkStatusSpec, checkEffectSpec, hdir, hres,
                    resolveCheck_eq_spec, h1, h2, hne, h3, h4]
                · simp [checkOne, checkStatusSpec, checkEffectSpec, hdir, hres,
                    resolveCheck_eq_spec, h1, h2, hne, h3, h4]
            · have heq : f.last_try.time = fi.first_try_time ∧
                  f.last_try.connection_id ≠ client := by
                push_neg at h2
                obtain ⟨hlt, himp⟩ := h2
                have he : f.last_try.time = fi.first_try_time := by omega
                exact ⟨he, himp he⟩
              simp [checkOne, checkStatusSpec, checkEffectSpec, hdir, hres,
                resolveCheck_eq_spec, h1, h2, heq]

/-- C1 (witness): the refinement theorem applied to a concrete state — a
directory with one blocked file; the hypotheses of the directory-found
branch are discharged on concrete lookups. -/
theorem checkVersionIncrease_per_file_spec_witness :
    (checkOne "b"
        ⟨[("d", { id := "d",
                  files := [("f", { id := "f", directory_id := "d", version := 3,
                                    content_changed_version := 1, ftype := .FILE,
                                    current_path := "p", deleted := false, content := [],
                                    status := .BLOCKED, locked_by_client := "a",
                                    lock_time := 0, is_being_read := false,
                                    last_try := { time := 5, connection_id := "a" } })],
                  path_to_id := [("p", "f")] })], []⟩
        { id := "f", directory_id := "d", current_path := "p", ftype := .FILE,
          deleted := false, content_changed := true, first_try_time := 9 }).1.file_id
      = "f" := by
  have h := (checkVersionIncrease_per_file_spec "b"
      ⟨[("d", { id := "d",
                files := [("f", { id := "f", directory_id := "d", version := 3,
                                  content_changed_version := 1, ftype := .FILE,
                                  current_path := "p", deleted := false, content := [],
                                  status := .BLOCKED, locked_by_client := "a",
                                  lock_time := 0, is_being_read := false,
                                  last_try := { time := 5, connection_id := "a" } })],
                path_to_id := [("p", "f")] })], []⟩
      { id := "f", directory_id := "d", current_path := "p", ftype := .FILE,
        deleted := false, content_changed := true, first_try_time := 9 }).2.2.2.2
      { id := "d",
        files := [("f", { id := "f", directory_id := "d", version := 3,
                          content_changed_version := 1, ftype := .FILE,
                          current_path := "p", deleted := false, content := [],
                          status := .BLOCKED, locked_by_client := "a",
                          lock_time := 0, is_being_read := false,
                          last_try := { time := 5, connection_id := "a" } })],
        path_to_id := [("p", "f")] } (by decide)
  exact h.trans (by decide)

/-! ## C2 — version and content-version arithmetic of commits -/

theorem resolveLockApply_lookup {dir : Directory} {fi : FileInfo} {fid : String}
    {f : StoredFile} (h : resolveLockApply dir fi = some (fid, f)) :
    lookupS dir.files fid = some f := by
  unfold resolveLockApply at h
  repeat' split at h
  all_goals simp_all

/-- The invariant `content_changed_version ≤ version` over every record. -/
def ccvInv (s : StorageState) : Prop :=
  ∀ d fid f, fileOf s d fid = some f → f.content_changed_version ≤ f.version

/-- Executable check of `ccvInv` on a concrete state. -/
def ccvInvB (s : StorageState) : Bool :=
  s.directories.all fun e =>
    e.2.files.all fun e2 => e2.2.content_changed_version ≤ e2.2.version

theorem ccvInv_of_b {s : StorageState} (h : ccvInvB s = true) : ccvInv s := by
  intro d fid f hf
  simp only [fileOf] at hf
  cases hd : lookupS s.directories d with
  | none => rw [hd] at hf; cases hf
  | some dir =>
      rw [hd] at hf
      simp only [Option.some_bind] at hf
      have hmem1 := lookupS_mem hd
      have hmem2 := lookupS_mem hf
      have h1 := (List.all_eq_true.mp h) _ hmem1
      have h2 := (List.all_eq_true.mp h1) _ hmem2
      simpa using h2

theorem applyOne_ccvInv (client : String) (contents : List (String × List Nat))
    (fresh : Nat → String) (s : StorageState) (k : Nat) (fi : FileInfo)
    (h : ccvInv s) : ccvInv (applyOne client contents fresh s k fi).1 := by
  intro d fid f hf
  unfold applyOne at hf
  split at hf
  · exact h _ _ _ hf
  next dir hdir =>
    split at hf
    next fid0 f0 hres =>
        by_cases hd : d = fi.directory_id
        · subst hd
          simp only [fileOf, lookupS_insertS_self, Option.some_bind] at hf
          by_cases hfid : fid = fid0
          · subst hfid
            rw [lookupS_insertS_self] at hf
            cases hf
            by_cases hcc : fi.content_changed
            · simp [hcc]
            · simp only [hcc, if_false]
              have h0 := h fi.directory_id fid f0
                (by simp [fileOf, hdir, resolveLockApply_lookup hres])
              exact Nat.le_succ_of_le h0
          · rw [lookupS_insertS_ne _ _ _ _ (fun hh => hfid hh.symm)] at hf
            exact h fi.directory_id fid f (by simp [fileOf, hdir, hf])
        · simp only [fileOf, lookupS_insertS_ne _ _ _ _ (fun hh => hd hh.symm)] at hf
          exact h _ _ _ hf
    next hres =>
        by_cases hd : d = fi.directory_id
        · subst hd
          simp only [fileOf, lookupS_insertS_self, Option.some_bind] at hf
          by_cases hfid : fid = fresh k
          · subst hfid
            rw [lookupS_insertS_self] at hf
            cases hf
            by_cases hcc : fi.content_changed
            · simp [hcc]
            · simp [hcc]
          · rw [lookupS_insertS_ne _ _ _ _ (fun hh => hfid hh.symm)] at hf
            exact h fi.directory_id fid f (by simp [fileOf, hdir, hf])
        · simp only [fileOf, lookupS_insertS_ne _ _ _ _ (fun hh => hd hh.symm)] at hf
          exact h _ _ _ hf

theorem applyFold_ccvInv (client : String) (contents : List (String × List Nat))
    (fresh : Nat → String) :
    ∀ (l : List FileInfo) (acc : StorageState × Nat × List FileMetadata),
      ccvInv acc.1 → ccvInv (l.foldl (applyStep client contents fresh) acc).1 := by
  intro l
  induction l with
  | nil => intro acc h; exact h
  | cons fi rest ih =>
      intro acc h
      exact ih _ (applyOne_ccvInv client contents fresh acc.1 acc.2.1 fi h)

/-- C2: per commit entry, a newly created file gets `version = 1` and
`content_changed_version = 1` iff the entry's `content_changed` is true
(else 0); an existing file's version increases by exactly 1, and its
`content_changed_version` becomes the new version when `content_changed` is
true and is unchanged otherwise; consequently a full `ApplyVersionIncrease`
preserves `content_changed_version ≤ version` over every record. -/
theorem applyVersionIncrease_versions :
    (∀ (client : String) (contents : List (String × List Nat)) (fresh : Nat → String)
        (s : StorageState) (k : Nat) (fi : FileInfo) (dir : Directory),
      lookupS s.directories fi.directory_id = some dir →
      ((resolveLockApply dir fi = none →
          ∃ nf, fileOf (applyOne client contents fresh s k fi).1 fi.directory_id (fresh k)
              = some nf
            ∧ nf.version = 1
            ∧ nf.content_changed_version = (if fi.content_changed then 1 else 0)
            ∧ (applyOne client contents fresh s k fi).2.2 = some (metaOf nf))
        ∧ (∀ fid f, resolveLockApply dir fi = some (fid, f) →
            ∃ nf, fileOf (applyOne client contents fresh s k fi).1 fi.directory_id fid
                = some nf
              ∧ nf.version = f.version + 1
              ∧ nf.content_changed_version =
                  (if fi.content_changed then f.version + 1 else f.content_changed_version)
              ∧ (applyOne client contents fresh s k fi).2.2 = some (metaOf nf))))
    ∧ (∀ (client : String) (req : AskVersionIncrease) (contents : List (String × List Nat))
        (fresh : Nat → String) (s : StorageState),
        ccvInv s → ccvInv (applyVersionIncrease client req contents fresh s).2) := by
  constructor
  · intro client contents fresh s k fi dir hdir
    constructor
    · intro hres
      unfold applyOne
      simp only [hdir, hres]
      refine ⟨_, by simp [fileOf, lookupS_insertS_self], rfl, rfl, rfl⟩
    · intro fid f hres
      unfold applyOne
      simp only [hdir, hres]
      refine ⟨_, by simp [fileOf, lookupS_insertS_self], rfl, ?_, rfl⟩
      by_cases hcc : fi.content_changed
      · simp [hcc]
      · simp [hcc]
  · intro client req contents fresh s h
    unfold applyVersionIncrease
    intro d fid f hf
    simp only [fileOf] at hf
    exact applyFold_ccvInv client contents fresh req.files (s, 0, []) h d fid f hf

/-- C2 (witness): the version theorem applied to a concrete commit — an
existing file at version 3 renamed without content change keeps
`content_changed_version = 1` and moves to version 4, and the invariant is
preserved. -/
theorem applyVersionIncrease_versions_witness :
    (∃ nf, fileOf (applyOne "c" [] (fun _ => "n0")
          ⟨[("d", { id := "d",
                    files := [("f", { id := "f", directory_id := "d", version := 3,
                                      content_changed_version := 1, ftype := .FILE,
                                      current_path := "p", deleted := false, content := [],
                                      status := .BLOCKED, locked_by_client := "c",
                                      lock_time := 0, is_being_read := false,
                                      last_try := { time := 5, connection_id := "c" } })],
                    path_to_id := [("p", "f")] })], []⟩ 0
          { id := "f", directory_id := "d", current_path := "q", ftype := .FILE,
            deleted := false, content_changed := false, first_try_time := 5 }).1 "d" "f"
        = some nf
      ∧ nf.version = 3 + 1
      ∧ nf.content_changed_version = (if false then 3 + 1 else 1))
    ∧ ccvInv (applyVersionIncrease "c"
        ⟨[{ id := "f", directory_id := "d", current_path := "q", ftype := .FILE,
            deleted := false, content_changed := false, first_try_time := 5 }]⟩ []
        (fun _ => "n0")
        ⟨[("d", { id := "d",
                  files := [("f", { id := "f", directory_id := "d", version := 3,
                                    content_changed_version := 1, ftype := .FILE,
                                    current_path := "p", deleted := false, content := [],
                                    status := .BLOCKED, locked_by_client := "c",
                                    lock_time := 0, is_being_read := false,
                                    last_try := { time := 5, connection_id := "c" } })],
                  path_to_id := [("p", "f")] })], []⟩).2 := by
  constructor
  · obtain ⟨nf, h1, h2, h3, _⟩ := (applyVersionIncrease_versions.1 "c" [] (fun _ => "n0")
      ⟨[("d", { id := "d",
                files := [("f", { id := "f", directory_id := "d", version := 3,
                                  content_changed_version := 1, ftype := .FILE,
                                  current_path := "p", deleted := false, content := [],
                                  status := .BLOCKED, locked_by_client := "c",
                                  lock_time := 0, is_being_read := false,
                                  last_try := { time := 5, connection_id := "c" } })],
                path_to_id := [("p", "f")] })], []⟩ 0
      { id := "f", directory_id := "d", current_path := "q", ftype := .FILE,
        deleted := false, content_changed := false, first_try_time := 5 }
      { id := "d",
        files := [("f", { id := "f", directory_id := "d", version := 3,
                          content_changed_version := 1, ftype := .FILE,
                          current_path := "p", deleted := false, content := [],
                          status := .BLOCKED, locked_by_client := "c",
                          lock_time := 0, is_being_read := false,
                          last_try := { time := 5, connection_id := "c" } })],
        path_to_id := [("p", "f")] } (by decide)).2 "f"
      { id := "f", directory_id := "d", version := 3,
        content_changed_version := 1, ftype := .FILE,
        current_path := "p", deleted := false, content := [],
        status := .BLOCKED, locked_by_client := "c",
        lock_time := 0, is_being_read := false,
        last_try := { time := 5, connection_id := "c" } } (by decide)
    exact ⟨nf, h1, h2, by simpa using h3⟩
  · exact applyVersionIncrease_versions.2 "c"
      ⟨[{ id := "f", directory_id := "d", current_path := "q", ftype := .FILE,
          deleted := false, content_changed := false, first_try_time := 5 }]⟩ []
      (fun _ => "n0")
      ⟨[("d", { id := "d",
                files := [("f", { id := "f", directory_id := "d", version := 3,
                                  content_changed_version := 1, ftype := .FILE,
                                  current_path := "p", deleted := false, content := [],
                                  status := .BLOCKED, locked_by_client := "c",
                                  lock_time := 0, is_being_read := false,
                                  last_try := { time := 5, connection_id := "c" } })],
                path_to_id := [("p", "f")] })], []⟩
      (ccvInv_of_b (by decide))

/-! ## C9 — `CheckVersionIncrease` mutates only FREE files -/

theorem setLastTry_backups (s : StorageState) (d fid : String) (t : Nat) (c : String) :
    (setLastTry s d fid t c).backups = s.backups := by
  unfold setLastTry
  split
  · rfl
  · split
    · rfl
    · rfl

theorem setLastTry_dir_path_to_id (s : StorageState) (d fid : String) (t : Nat) (c : String)
    (d' : String) :
    (lookupS (setLastTry s d fid t c).directories d').map Directory.path_to_id
      = (lookupS s.directories d').map Directory.path_to_id := by
  unfold setLastTry
  split
  · rfl
  next dir hdir =>
    split
    · rfl
    next f hf =>
      by_cases hd : d = d'
      · subst hd
        rw [lookupS_insertS_self, hdir]
        rfl
      · rw [lookupS_insertS_ne _ _ _ _ hd]

theorem setLastTry_dir_id (s : StorageState) (d fid : String) (t : Nat) (c : String)
    (d' : String) :
    (lookupS (setLastTry s d fid t c).directories d').map Directory.id
      = (lookupS s.directories d').map Directory.id := by
  unfold setLastTry
  split
  · rfl
  next dir hdir =>
    split
    · rfl
    next f hf =>
      by_cases hd : d = d'
      · subst hd
        rw [lookupS_insertS_self, hdir]
        rfl
      · rw [lookupS_insertS_ne _ _ _ _ hd]

theorem setLastTry_fileOf (s : StorageState) (d fid : String) (t : Nat) (c : String)
    (d' fid' : String) :
    fileOf (setLastTry s d fid t c) d' fid'
      = if d' = d ∧ fid' = fid then
          (fileOf s d' fid').map fun f => { f with last_try := { time := t, connection_id := c } }
        else fileOf s d' fid' := by
  unfold setLastTry
  split
  next hdir =>
    split
    · next h =>
        obtain ⟨h1, h2⟩ := h
        subst h1; subst h2
        simp [fileOf, hdir]
    · rfl
  next dir hdir =>
    split
    next hf =>
      split
      · next h =>
          obtain ⟨h1, h2⟩ := h
          subst h1; subst h2
          simp [fileOf, hdir, hf]
      · rfl
    next f hf =>
      by_cases hd : d' = d
      · subst hd
        by_cases hfid : fid' = fid
        · subst hfid
          simp [fileOf, hdir, hf, lookupS_insertS_self]
        · rw [if_neg (fun h => hfid h.2)]
          simp only [fileOf, lookupS_insertS_self, Option.some_bind]
          rw [lookupS_insertS_ne _ _ _ _ (fun h => hfid h.symm), hdir]
          rfl
      · rw [if_neg (fun h => hd h.1)]
        simp only [fileOf]
        rw [lookupS_insertS_ne _ _ _ _ (fun h => hd h.symm)]

theorem checkOne_state_or (client : String) (s : StorageState) (fi : FileInfo) :
    (checkOne client s fi).2 = s
    ∨ ((checkOne client s fi).1.status = FileStatus.FREE
        ∧ (checkOne client s fi).1.directory_id = fi.directory_id
        ∧ (checkOne client s fi).2 =
            setLastTry s fi.directory_id (checkOne client s fi).1.file_id
              fi.first_try_time client) := by
  unfold checkOne
  repeat' split
  all_goals
    first
      | exact Or.inl rfl
      | exact Or.inr ⟨rfl, rfl, rfl⟩

/-- The frame relation of C9: between `s` and `s'`, the backups, the
directory skeletons and every path index agree; no file appears or
disappears; and a file record may differ only in `last_try`, and only when
some result in `results` reported it FREE. -/
def OnlyFreeLastTryChanges (results : List VersionCheckResult) (s s' : StorageState) : Prop :=
  s'.backups = s.backups
  ∧ (∀ d, (lookupS s'.directories d).map Directory.path_to_id
        = (lookupS s.directories d).map Directory.path_to_id)
  ∧ (∀ d, (lookupS s'.directories d).map Directory.id
        = (lookupS s.directories d).map Directory.id)
  ∧ (∀ d fid, (fileOf s' d fid).isSome = (fileOf s d fid).isSome)
  ∧ (∀ d fid old new, fileOf s d fid = some old → fileOf s' d fid = some new →
      new = { old with last_try := new.last_try }
      ∧ (new ≠ old → ∃ r ∈ results, r.status = FileStatus.FREE ∧ r.file_id = fid
            ∧ r.directory_id = d))

theorem OnlyFreeLastTryChanges_refl (results : List VersionCheckResult) (s : StorageState) :
    OnlyFreeLastTryChanges results s s := by
  refine ⟨rfl, fun d => rfl, fun d => rfl, fun d fid => rfl, ?_⟩
  intro d fid old new hold hnew
  rw [hold] at hnew
  cases hnew
  exact ⟨rfl, fun h => absurd rfl h⟩

theorem OnlyFreeLastTryChanges_trans {r1 r2 : List VersionCheckResult}
    {s s1 s2 : StorageState}
    (h1 : OnlyFreeLastTryChanges r1 s s1) (h2 : OnlyFreeLastTryChanges r2 s1 s2) :
    OnlyFreeLastTryChanges (r1 ++ r2) s s2 := by
  obtain ⟨b1, p1, i1, e1, f1⟩ := h1
  obtain ⟨b2, p2, i2, e2, f2⟩ := h2
  refine ⟨b2.trans b1, fun d => (p2 d).trans (p1 d), fun d => (i2 d).trans (i1 d),
    fun d fid => (e2 d fid).trans (e1 d fid), ?_⟩
  intro d fid old new hold hnew
  have hmid : ∃ mid, fileOf s1 d fid = some mid := by
    have := e1 d fid
    rw [hold] at this
    cases hm : fileOf s1 d fid with
    | none => rw [hm] at this; simp at this
    | some mid => exact ⟨mid, rfl⟩
  obtain ⟨mid, hm⟩ := hmid
  obtain ⟨hshape1, hfree1⟩ := f1 d fid old mid hold hm
  obtain ⟨hshape2, hfree2⟩ := f2 d fid mid new hm hnew
  constructor
  · rw [hshape2, hshape1]
  · intro hne
    by_cases hmo : mid = old
    · have : new ≠ mid := by rw [hmo]; exact hne
      obtain ⟨r, hr, hprops⟩ := hfree2 this
      exact ⟨r, List.mem_append_right r1 hr, hprops⟩
    · obtain ⟨r, hr, hprops⟩ := hfree1 hmo
      exact ⟨r, List.mem_append_left r2 hr, hprops⟩

theorem setLastTry_OFLTC (s : StorageState) (d fid : String) (t : Nat) (c : String) :
    OnlyFreeLastTryChanges [{ file_id := fid, status := FileStatus.FREE, directory_id := d }]
      s (setLastTry s d fid t c) := by
  refine ⟨setLastTry_backups s d fid t c, setLastTry_dir_path_to_id s d fid t c,
    setLastTry_dir_id s d fid t c, ?_, ?_⟩
  · intro d' fid'
    rw [setLastTry_fileOf]
    split
    · simp [Option.isSome_map]
    · rfl
  · intro d' fid' old new hold hnew
    rw [setLastTry_fileOf] at hnew
    by_cases hcase : d' = d ∧ fid' = fid
    · rw [if_pos hcase, hold] at hnew
      simp only [Option.map_some'] at hnew
      cases hnew
      refine ⟨rfl, ?_⟩
      intro _
      exact ⟨_, List.mem_singleton_self _, rfl, hcase.2.symm, hcase.1.symm⟩
    · rw [if_neg hcase, hold] at hnew
      cases hnew
      exact ⟨rfl, fun h => absurd rfl h⟩

theorem checkOne_OFLTC (client : String) (s : StorageState) (fi : FileInfo) :
    OnlyFreeLastTryChanges [(checkOne client s fi).1] s (checkOne client s fi).2 := by
  rcases checkOne_state_or client s fi with h | ⟨hst, hdir, heff⟩
  · rw [h]
    exact OnlyFreeLastTryChanges_refl _ s
  · rw [heff]
    have h2 := setLastTry_OFLTC s fi.directory_id (checkOne client s fi).1.file_id
      fi.first_try_time client
    have hr : ({ file_id := (checkOne client s fi).1.file_id,
                 status := FileStatus.FREE,
                 directory_id := fi.directory_id } : VersionCheckResult)
        = (checkOne client s fi).1 := by
      cases hc : (checkOne client s fi).1
      simp only [hc] at hst hdir ⊢
      rw [hst, hdir]
    rwa [hr] at h2

theorem checkVersionIncrease_fold_OFLTC (client : String) (s0 : StorageState) :
    ∀ (l : List FileInfo) (acc : List VersionCheckResult) (s : StorageState),
      OnlyFreeLastTryChanges acc s0 s →
      OnlyFreeLastTryChanges
        (l.foldl (fun acc fi =>
          let (r, s') := checkOne client acc.2 fi
          (acc.1 ++ [r], s')) (acc, s)).1
        s0
        (l.foldl (fun acc fi =>
          let (r, s') := checkOne client acc.2 fi
          (acc.1 ++ [r], s')) (acc, s)).2 := by
  intro l
  induction l with
  | nil => intro acc s h; exact h
  | cons fi rest ih =>
      intro acc s h
      have hstep := checkOne_OFLTC client s fi
      exact ih (acc ++ [(checkOne client s fi).1]) (checkOne client s fi).2
        (OnlyFreeLastTryChanges_trans h hstep)

/-- C9: `CheckVersionIncrease` mutates the stored state only for files whose
per-file result is FREE — the backups, directory skeletons and path indices
are untouched, no file is created or removed, and a record that changed at
all changed only in `last_try` and was reported FREE (so a file whose every
result is DENIED or BLOCKED, or that the request never resolves to, is left
exactly as it was). -/
theorem checkVersionIncrease_frame (client : String) (req : AskVersionIncrease)
    (s : StorageState) :
    OnlyFreeLastTryChanges (checkVersionIncrease client req s).1 s
      (checkVersionIncrease client req s).2 := by
  unfold checkVersionIncrease
  exact checkVersionIncrease_fold_OFLTC client s req.files [] s
    (OnlyFreeLastTryChanges_refl [] s)

/-- C9 (witness): the frame theorem applied to a concrete state in which one
file is admitted (FREE, `last_try` updated) and a lookup confirms the
reported FREE result. -/
theorem checkVersionIncrease_frame_witness :
    OnlyFreeLastTryChanges
      (checkVersionIncrease "b"
        ⟨[{ id := "f", directory_id := "d", current_path := "p", ftype := .FILE,
            deleted := false, content_changed := true, first_try_time := 9 }]⟩
        ⟨[("d", { id := "d",
                  files := [("f", { id := "f", directory_id := "d", version := 3,
                                    content_changed_version := 1, ftype := .FILE,
                                    current_path := "p", deleted := false, content := [],
                                    status := .FREE, locked_by_client := "",
                                    lock_time := 0, is_being_read := false,
                                    last_try := { time := 5, connection_id := "a" } })],
                  path_to_id := [("p", "f")] })], []⟩).1
      ⟨[("d", { id := "d",
                files := [("f", { id := "f", directory_id := "d", version := 3,
                                  content_changed_version := 1, ftype := .FILE,
                                  current_path := "p", deleted := false, content := [],
                                  status := .FREE, locked_by_client := "",
                                  lock_time := 0, is_being_read := false,
                                  last_try := { time := 5, connection_id := "a" } })],
                path_to_id := [("p", "f")] })], []⟩
      (checkVersionIncrease "b"
        ⟨[{ id := "f", directory_id := "d", current_path := "p", ftype := .FILE,
            deleted := false, content_changed := true, first_try_time := 9 }]⟩
        ⟨[("d", { id := "d",
                  files := [("f", { id := "f", directory_id := "d", version := 3,
                                    content_changed_version := 1, ftype := .FILE,
                                    current_path := "p", deleted := false, content := [],
                                    status := .FREE, locked_by_client := "",
                                    lock_time := 0, is_being_read := false,
                                    last_try := { time := 5, connection_id := "a" } })],
                  path_to_id := [("p", "f")] })], []⟩).2 :=
  checkVersionIncrease_frame "b"
    ⟨[{ id := "f", directory_id := "d", current_path := "p", ftype := .FILE,
        deleted := false, content_changed := true, first_try_time := 9 }]⟩
    ⟨[("d", { id := "d",
              files := [("f", { id := "f", directory_id := "d", version := 3,
                                content_changed_version := 1, ftype := .FILE,
                                current_path := "p", deleted := false, content := [],
                                status := .FREE, locked_by_client := "",
                                lock_time := 0, is_being_read := false,
                                last_try := { time := 5, connection_id := "a" } })],
              path_to_id := [("p", "f")] })], []⟩

/-! ## C4 — monotonicity of `last_try.time` -/

/-- Generic pointwise description of replacing one file record inside one
directory (the update shape shared by `setLastTry`, `lockOne`, `applyOne`,
`restoreBackup` and `unlockOne`). -/
theorem fileOf_set_file (s : StorageState) (bks : List (String × List (String × StoredFile)))
    (d : String) (dir : Directory) (fid : String) (f' : StoredFile) (did : String)
    (p2 : List (String × String)) (hdir : lookupS s.directories d = some dir)
    (d' fid' : String) :
    fileOf ⟨insertS s.directories d { id := did, files := insertS dir.files fid f',
                                      path_to_id := p2 }, bks⟩ d' fid'
      = if d' = d ∧ fid' = fid then some f' else fileOf s d' fid' := by
  by_cases hd : d' = d
  · subst hd
    by_cases hf : fid' = fid
    · subst hf
      simp [fileOf, lookupS_insertS_self]
    · rw [if_neg (fun h => hf h.2)]
      simp only [fileOf, lookupS_insertS_self, Option.some_bind, hdir]
      rw [lookupS_insertS_ne _ _ _ _ (fun h => hf h.symm)]
  · rw [if_neg (fun h => hd h.1)]
    simp only [fileOf]
    rw [lookupS_insertS_ne _ _ _ _ (fun h => hd h.symm)]

theorem resolveCheck_lookup {dir : Directory} {fi : FileInfo} {fid : String}
    {f : StoredFile} (h : resolveCheck dir fi = some (fid, f)) :
    lookupS dir.files fid = some f := by
  unfold resolveCheck at h
  repeat' split at h
  all_goals simp_all

/-- `last_try.time` does not decrease, and files do not disappear, between
two states. -/
def latMono (s s' : StorageState) : Prop :=
  ∀ d fid t, lastTryTime s d fid = some t →
    ∃ t', lastTryTime s' d fid = some t' ∧ t ≤ t'

theorem latMono_refl (s : StorageState) : latMono s s :=
  fun _ _ t ht => ⟨t, ht, le_refl t⟩

theorem latMono_trans {s1 s2 s3 : StorageState} (h1 : latMono s1 s2) (h2 : latMono s2 s3) :
    latMono s1 s3 := by
  intro d fid t ht
  obtain ⟨t1, ht1, hle1⟩ := h1 d fid t ht
  obtain ⟨t2, ht2, hle2⟩ := h2 d fid t1 ht1
  exact ⟨t2, ht2, hle1.trans hle2⟩

theorem checkOne_latMono (client : String) (s : StorageState) (fi : FileInfo) :
    latMono s (checkOne client s fi).2 := by
  unfold checkOne
  split
  · exact latMono_refl s
  next dir hdir =>
    split
    · exact latMono_refl s
    next fid f hres =>
      split
      · exact latMono_refl s
      next h1 =>
        split
        next h2 =>
          split
          · exact latMono_refl s
          next h3 =>
            split
            · exact latMono_refl s
            next h4 =>
              intro d' fid' t ht
              rw [lastTryTime, setLastTry_fileOf]
              by_cases hc : d' = fi.directory_id ∧ fid' = fid
              · rw [if_pos hc]
                have hof : fileOf s d' fid' = some f := by
                  rw [hc.1, hc.2]
                  simp [fileOf, hdir, resolveCheck_lookup hres]
                have htv : f.last_try.time = t := by
                  rw [lastTryTime, hof] at ht
                  simpa using ht
                refine ⟨fi.first_try_time, ?_, ?_⟩
                · rw [hof]
                  rfl
                · omega
              · rw [if_neg hc]
                exact ⟨t, ht, le_refl t⟩
        next h2 => exact latMono_refl s

theorem checkVersionIncrease_latMono (client : String) (req : AskVersionIncrease)
    (s : StorageState) : latMono s (checkVersionIncrease client req s).2 := by
  unfold checkVersionIncrease
  suffices h : ∀ (l : List FileInfo) (acc : List VersionCheckResult) (s1 : StorageState),
      latMono s1
        (l.foldl (fun acc fi =>
          let (r, s') := checkOne client acc.2 fi
          (acc.1 ++ [r], s')) (acc, s1)).2 by
    exact h req.files [] s
  intro l
  induction l with
  | nil => intro acc s1; exact latMono_refl s1
  | cons fi rest ih =>
      intro acc s1
      exact latMono_trans (checkOne_latMono client s1 fi)
        (ih (acc ++ [(checkOne client s1 fi).1]) (checkOne client s1 fi).2)

theorem lockOne_lastTry (client : String) (now : Nat) (s : StorageState) (fi : FileInfo)
    (d' fid' : String) :
    (fileOf (lockOne client now s fi) d' fid').map StoredFile.last_try
      = (fileOf s d' fid').map StoredFile.last_try := by
  unfold lockOne
  split
  · rfl
  next dir hdir =>
    split
    · rfl
    next fid f hres =>
      rw [fileOf_set_file s _ fi.directory_id dir fid _ dir.id dir.path_to_id hdir]
      split
      next hc =>
        have hof : fileOf s d' fid' = some f := by
          rw [hc.1, hc.2]
          simp [fileOf, hdir, resolveLockApply_lookup hres]
        rw [hof]
        rfl
      · rfl

theorem lockFilesForWrite_latMono (client : String) (req : AskVersionIncrease) (now : Nat)
    (s : StorageState) : latMono s (lockFilesForWrite client req now s) := by
  unfold lockFilesForWrite
  suffices h : ∀ (l : List FileInfo) (s1 : StorageState),
      latMono s1 (l.foldl (lockOne client now) s1) by
    exact h req.files s
  intro l
  induction l with
  | nil => intro s1; exact latMono_refl s1
  | cons fi rest ih =>
      intro s1
      refine latMono_trans ?_ (ih (lockOne client now s1 fi))
      intro d fid t ht
      refine ⟨t, ?_, le_refl t⟩
      rw [lastTryTime] at ht ⊢
      have := lockOne_lastTry client now s1 fi d fid
      cases hof : fileOf s1 d fid with
      | none => rw [hof] at ht; cases ht
      | some f =>
          rw [hof] at ht this
          cases hof' : fileOf (lockOne client now s1 fi) d fid with
          | none => rw [hof'] at this; cases this
          | some f' =>
              rw [hof'] at this
              simp only [Option.map_some'] at this ht ⊢
              rw [show f'.last_try = f.last_try from by simpa using this] at *
              exact ht

/-- A fresh-id oracle value unused anywhere in the state. -/
def freshUnused (s : StorageState) (id : String) : Prop :=
  ∀ d, fileOf s d id = none

/-- All oracle values from index `k` on are unused in `s`. -/
def freshOKFrom (fresh : Nat → String) (k : Nat) (s : StorageState) : Prop :=
  ∀ n, k ≤ n → freshUnused s (fresh n)

theorem applyOne_latMono (client : String) (contents : List (String × List Nat))
    (fresh : Nat → String) (s : StorageState) (k : Nat) (fi : FileInfo)
    (hinj : Function.Injective fresh) (hfr : freshOKFrom fresh k s) :
    latMono s (applyOne client contents fresh s k fi).1
    ∧ freshOKFrom fresh (applyOne client contents fresh s k fi).2.1
        (applyOne client contents fresh s k fi).1
    ∧ k ≤ (applyOne client contents fresh s k fi).2.1 := by
  unfold applyOne
  split
  · exact ⟨latMono_refl s, hfr, le_refl k⟩
  next dir hdir =>
    split
    next fid f hres =>
      dsimp only
      refine ⟨?_, ?_, le_refl k⟩
      · intro d' fid' t ht
        rw [lastTryTime, fileOf_set_file s _ fi.directory_id dir fid _ dir.id _ hdir]
        split
        next hc =>
          have hof : fileOf s d' fid' = some f := by
            rw [hc.1, hc.2]
            simp [fileOf, hdir, resolveLockApply_lookup hres]
          rw [lastTryTime, hof] at ht
          exact ⟨t, by simpa using ht, le_refl t⟩
        · exact ⟨t, ht, le_refl t⟩
      · intro n hn d'
        rw [fileOf_set_file s _ fi.directory_id dir fid _ dir.id _ hdir]
        split
        next hc =>
          exfalso
          have hthis := hfr n hn fi.directory_id
          rw [hc.2] at hthis
          simp [fileOf, hdir, resolveLockApply_lookup hres] at hthis
        · exact hfr n hn d'
    next hres =>
      dsimp only
      refine ⟨?_, ?_, Nat.le_succ k⟩
      · intro d' fid' t ht
        rw [lastTryTime, fileOf_set_file s _ fi.directory_id dir (fresh k) _ dir.id _ hdir]
        split
        next hc =>
          exfalso
          have hthis := hfr k (le_refl k) d'
          rw [← hc.2] at hthis
          rw [lastTryTime, hthis] at ht
          cases ht
        · exact ⟨t, ht, le_refl t⟩
      · intro n hn d'
        rw [fileOf_set_file s _ fi.directory_id dir (fresh k) _ dir.id _ hdir]
        split
        next hc =>
          exfalso
          have : n = k := hinj hc.2
          omega
        · exact hfr n (by omega) d'

theorem applyVersionIncrease_latMono (client : String) (req : AskVersionIncrease)
    (contents : List (String × List Nat)) (fresh : Nat → String) (s : StorageState)
    (hinj : Function.Injective fresh) (hfr : freshOKFrom fresh 0 s) :
    latMono s (applyVersionIncrease client req contents fresh s).2 := by
  unfold applyVersionIncrease
  have hgen : ∀ (l : List FileInfo) (acc : StorageState × Nat × List FileMetadata),
      freshOKFrom fresh acc.2.1 acc.1 →
      latMono acc.1 (l.foldl (applyStep client contents fresh) acc).1 := by
    intro l
    induction l with
    | nil => intro acc _; exact latMono_refl acc.1
    | cons fi rest ih =>
        intro acc hacc
        obtain ⟨h1, h2, h3⟩ := applyOne_latMono client contents fresh acc.1 acc.2.1 fi hinj hacc
        exact latMono_trans h1 (ih (applyStep client contents fresh acc fi) h2)
  have hlat := hgen req.files (s, 0, []) hfr
  intro d fid t ht
  obtain ⟨t', ht', hle⟩ := hlat d fid t ht
  refine ⟨t', ?_, hle⟩
  rw [lastTryTime] at ht' ⊢
  exact ht'

theorem releaseLocks_fileOf (client : String) (s : StorageState) (d fid : String) :
    fileOf (releaseLocks client s) d fid
      = (fileOf s d fid).map fun f =>
          if f.locked_by_client = client then
            { f with status := FileStatus.FREE, locked_by_client := "" }
          else f := by
  unfold releaseLocks fileOf
  rw [lookupS_mapF]
  cases hd : lookupS s.directories d with
  | none => rfl
  | some dir =>
      simp only [Option.map_some', Option.some_bind]
      rw [lookupS_mapF]

theorem checkStaleLocks_fileOf (now timeout : Nat) (s : StorageState) (d fid : String) :
    fileOf (checkStaleLocks now timeout s) d fid
      = (fileOf s d fid).map fun f =>
          if f.status = FileStatus.BLOCKED ∧ timeout < now - f.lock_time then
            { f with status := FileStatus.FREE, locked_by_client := "" }
          else f := by
  unfold checkStaleLocks fileOf
  rw [lookupS_mapF]
  cases hd : lookupS s.directories d with
  | none => rfl
  | some dir =>
      simp only [Option.map_some', Option.some_bind]
      rw [lookupS_mapF]

theorem releaseLocks_latMono (client : String) (s : StorageState) :
    latMono s (releaseLocks client s) := by
  intro d fid t ht
  rw [lastTryTime] at ht ⊢
  rw [releaseLocks_fileOf]
  cases hof : fileOf s d fid with
  | none => rw [hof] at ht; cases ht
  | some f =>
      rw [hof] at ht
      refine ⟨t, ?_, le_refl t⟩
      simp only [Option.map_some'] at ht ⊢
      split <;> simpa using ht

theorem checkStaleLocks_latMono (now timeout : Nat) (s : StorageState) :
    latMono s (checkStaleLocks now timeout s) := by
  intro d fid t ht
  rw [lastTryTime] at ht ⊢
  rw [checkStaleLocks_fileOf]
  cases hof : fileOf s d fid with
  | none => rw [hof] at ht; cases ht
  | some f =>
      rw [hof] at ht
      refine ⟨t, ?_, le_refl t⟩
      simp only [Option.map_some'] at ht ⊢
      split <;> simpa using ht

/-- Freshness side condition on one operation (only commits mint ids). -/
def opFreshOK : StorageOp → StorageState → Prop
  | .applyOp _ _ _ fresh, s => Function.Injective fresh ∧ freshOKFrom fresh 0 s
  | _, _ => True

/-- Freshness side condition along a whole operation sequence. -/
def opsFreshOK : List StorageOp → StorageState → Prop
  | [], _ => True
  | op :: rest, s => opFreshOK op s ∧ opsFreshOK rest (runOp op s)

theorem runOp_latMono (op : StorageOp) (s : StorageState)
    (hnr : op.isRollback = false) (hok : opFreshOK op s) : latMono s (runOp op s) := by
  cases op with
  | checkOp client req => exact checkVersionIncrease_latMono client req s
  | lockOp client req now => exact lockFilesForWrite_latMono client req now s
  | applyOp client req contents fresh =>
      exact applyVersionIncrease_latMono client req contents fresh s hok.1 hok.2
  | rollbackOp client req => cases hnr
  | staleOp now timeout => exact checkStaleLocks_latMono now timeout s
  | releaseOp client => exact releaseLocks_latMono client s

/-- C4 (amended): across any sequence of storage operations that contains no
`RollbackUpload` (and whose commits mint genuinely fresh ids), a file's
stored `last_try.time` never decreases. `RollbackUpload` is excluded because
it restores the backed-up `last_try` wholesale, which can rewind it (see the
counterexample). -/
theorem lastTry_monotone_without_rollback (ops : List StorageOp) (s : StorageState)
    (hnr : ∀ op ∈ ops, op.isRollback = false) (hok : opsFreshOK ops s)
    (d fid : String) (t t' : Nat) (ht : lastTryTime s d fid = some t)
    (ht' : lastTryTime (runOps ops s) d fid = some t') : t ≤ t' := by
  suffices h : ∀ (ops2 : List StorageOp), (∀ op ∈ ops2, op.isRollback = false) →
      ∀ s2, opsFreshOK ops2 s2 → latMono s2 (runOps ops2 s2) by
    obtain ⟨t1, h1, hle⟩ := h ops hnr s hok d fid t ht
    have ht1 : t' = t1 := by
      have := ht'.symm.trans h1
      simpa using this
    omega
  intro ops2
  induction ops2 with
  | nil => intro _ s2 _; exact latMono_refl s2
  | cons op rest ih =>
      intro hnr2 s2 hok2
      exact latMono_trans
        (runOp_latMono op s2 (hnr2 op (List.mem_cons_self op rest)) hok2.1)
        (ih (fun o ho => hnr2 o (List.mem_cons_of_mem op ho)) (runOp op s2) hok2.2)

/-- C4 (counterexample): the claim as stated — `last_try.time` never
decreases across sequences that include the stale-lock sweep, a later
admission, and a rollback — fails: client a locks the file, the sweep frees
the stale lock, client b is admitted with `first_try_time = 9`
(`last_try.time` becomes 9), and a's rollback restores the backup, rewinding
`last_try.time` to 5. -/
theorem lastTry_decreases_after_rollback :
    lastTryTime
        (runOps
          [StorageOp.lockOp "a"
              ⟨[{ id := "f", directory_id := "d", current_path := "p", ftype := .FILE,
                  deleted := false, content_changed := true, first_try_time := 5 }]⟩ 10,
           StorageOp.staleOp 100 10,
           StorageOp.checkOp "b"
              ⟨[{ id := "f", directory_id := "d", current_path := "p", ftype := .FILE,
                  deleted := false, content_changed := true, first_try_time := 9 }]⟩]
          ⟨[("d", { id := "d",
                    files := [("f", { id := "f", directory_id := "d", version := 1,
                                      content_changed_version := 1, ftype := .FILE,
                                      current_path := "p", deleted := false, content := [],
                                      status := .FREE, locked_by_client := "",
                                      lock_time := 0, is_being_read := false,
                                      last_try := { time := 5, connection_id := "a" } })],
                    path_to_id := [("p", "f")] })], []⟩)
        "d" "f" = some 9
    ∧ lastTryTime
        (runOps
          [StorageOp.lockOp "a"
              ⟨[{ id := "f", directory_id := "d", current_path := "p", ftype := .FILE,
                  deleted := false, content_changed := true, first_try_time := 5 }]⟩ 10,
           StorageOp.staleOp 100 10,
           StorageOp.checkOp "b"
              ⟨[{ id := "f", directory_id := "d", current_path := "p", ftype := .FILE,
                  deleted := false, content_changed := true, first_try_time := 9 }]⟩,
           StorageOp.rollbackOp "a"
              ⟨[{ id := "f", directory_id := "d", current_path := "p", ftype := .FILE,
                  deleted := false, content_changed := true, first_try_time := 5 }]⟩]
          ⟨[("d", { id := "d",
                    files := [("f", { id := "f", directory_id := "d", version := 1,
                                      content_changed_version := 1, ftype := .FILE,
                                      current_path := "p", deleted := false, content := [],
                                      status := .FREE, locked_by_client := "",
                                      lock_time := 0, is_being_read := false,
                                      last_try := { time := 5, connection_id := "a" } })],
                    path_to_id := [("p", "f")] })], []⟩)
        "d" "f" = some 5
    ∧ (5 : Nat) < 9 := ⟨rfl, rfl, by decide⟩

/-- C4 (witness): the monotonicity theorem applied to a concrete
rollback-free sequence — a check by client b raises `last_try.time` from 5
to 9, so `5 ≤ 9` is forced by the theorem. -/
theorem lastTry_monotone_witness : (5 : Nat) ≤ 9 :=
  lastTry_monotone_without_rollback
    [StorageOp.checkOp "b"
        ⟨[{ id := "f", directory_id := "d", current_path := "p", ftype := .FILE,
            deleted := false, content_changed := true, first_try_time := 9 }]⟩]
    ⟨[("d", { id := "d",
              files := [("f", { id := "f", directory_id := "d", version := 1,
                                content_changed_version := 1, ftype := .FILE,
                                current_path := "p", deleted := false, content := [],
                                status := .FREE, locked_by_client := "",
                                lock_time := 0, is_being_read := false,
                                last_try := { time := 5, connection_id := "a" } })],
              path_to_id := [("p", "f")] })], []⟩
    (by intro op hop; simp only [List.mem_singleton] at hop; subst hop; rfl)
    ⟨trivial, trivial⟩ "d" "f" 5 9 rfl rfl

/-! ## C5 — path-index consistency -/

/-- The pair of fields the path index depends on. -/
def pdOf (f : StoredFile) : String × Bool := (f.current_path, f.deleted)

/-- The path-index invariant: in every directory, every non-deleted file's
`current_path` is indexed to its id, and every index entry points at a
non-deleted file whose `current_path` is the indexed path (so each such path
has exactly one entry, in its owning directory). -/
def pathIndexOK (s : StorageState) : Prop :=
  ∀ d dir, lookupS s.directories d = some dir →
    (∀ fid f, fileOf s d fid = some f → f.deleted = false →
        lookupS dir.path_to_id f.current_path = some fid)
    ∧ (∀ p fid, lookupS dir.path_to_id p = some fid →
        ∃ f, fileOf s d fid = some f ∧ f.deleted = false ∧ f.current_path = p)

/-- Executable check of `pathIndexOK` on a concrete state. -/
def pathIndexOKB (s : StorageState) : Bool :=
  s.directories.all fun e =>
    (e.2.files.all fun e2 =>
      if e2.2.deleted then true
      else decide (lookupS e.2.path_to_id e2.2.current_path = some e2.1))
    && (e.2.path_to_id.all fun e2 =>
      match lookupS e.2.files e2.2 with
      | some f => decide (f.deleted = false ∧ f.current_path = e2.1)
      | none => false)

theorem pathIndexOK_of_b {s : StorageState} (h : pathIndexOKB s = true) : pathIndexOK s := by
  intro d dir hdir
  have hall := (List.all_eq_true.mp h) _ (lookupS_mem hdir)
  simp only [Bool.and_eq_true] at hall
  constructor
  · intro fid f hf hdel
    simp only [fileOf, hdir, Option.some_bind] at hf
    have h1 := (List.all_eq_true.mp hall.1) _ (lookupS_mem hf)
    rw [hdel] at h1
    simpa using h1
  · intro p fid hp
    have h2 := (List.all_eq_true.mp hall.2) _ (lookupS_mem hp)
    simp only at h2
    cases hf : lookupS dir.files fid with
    | none => rw [hf] at h2; cases h2
    | some f =>
        rw [hf] at h2
        simp only [decide_eq_true_eq] at h2
        exact ⟨f, by simp [fileOf, hdir, hf], h2.1, h2.2⟩

/-- Inserting a directory with an unchanged path index leaves every
directory's path index unchanged. -/
theorem paths_insert_dir (dirs : List (String × Directory)) (d : String) (dir dir' : Directory)
    (hdir : lookupS dirs d = some dir) (hp : dir'.path_to_id = dir.path_to_id) (d' : String) :
    (lookupS (insertS dirs d dir') d').map Directory.path_to_id
      = (lookupS dirs d').map Directory.path_to_id := by
  by_cases hd : d = d'
  · subst hd
    rw [lookupS_insertS_self, hdir]
    simp [hp]
  · rw [lookupS_insertS_ne _ _ _ _ hd]

/-- A state transformation that preserves every directory's path index and
every record's `(current_path, deleted)` pair preserves the path-index
invariant. -/
theorem pathIndexOK_of_pointwise {s s' : StorageState}
    (hpaths : ∀ d, (lookupS s'.directories d).map Directory.path_to_id
        = (lookupS s.directories d).map Directory.path_to_id)
    (hpd : ∀ d fid, (fileOf s' d fid).map pdOf = (fileOf s d fid).map pdOf)
    (h : pathIndexOK s) : pathIndexOK s' := by
  intro d dir' hdir'
  have hp := hpaths d
  rw [hdir'] at hp
  cases hdir : lookupS s.directories d with
  | none => rw [hdir] at hp; cases hp
  | some dir =>
      rw [hdir] at hp
      simp only [Option.map_some', Option.some.injEq] at hp
      obtain ⟨hA, hB⟩ := h d dir hdir
      constructor
      · intro fid f' hf' hdel'
        have hpd' := hpd d fid
        rw [hf'] at hpd'
        cases hf : fileOf s d fid with
        | none => rw [hf] at hpd'; cases hpd'
        | some f =>
            rw [hf] at hpd'
            simp only [Option.map_some', pdOf, Option.some.injEq, Prod.mk.injEq] at hpd'
            rw [hp, hpd'.1]
            exact hA fid f hf (hpd'.2 ▸ hdel')
      · intro p fid hpfid
        rw [hp] at hpfid
        obtain ⟨f, hf, hdel, hpath⟩ := hB p fid hpfid
        have hpd' := hpd d fid
        rw [hf] at hpd'
        cases hf' : fileOf s' d fid with
        | none => rw [hf'] at hpd'; cases hpd'
        | some f' =>
            rw [hf'] at hpd'
            simp only [Option.map_some', pdOf, Option.some.injEq, Prod.mk.injEq] at hpd'
            exact ⟨f', rfl, by rw [hpd'.2, hdel], by rw [hpd'.1, hpath]⟩

theorem setLastTry_pathIndexOK (s : StorageState) (d fid : String) (t : Nat) (c : String)
    (h : pathIndexOK s) : pathIndexOK (setLastTry s d fid t c) := by
  refine pathIndexOK_of_pointwise (setLastTry_dir_path_to_id s d fid t c) ?_ h
  intro d' fid'
  rw [setLastTry_fileOf]
  split
  · cases fileOf s d' fid' <;> rfl
  · rfl

theorem checkVersionIncrease_pathIndexOK (client : String) (req : AskVersionIncrease)
    (s : StorageState) (h : pathIndexOK s) :
    pathIndexOK (checkVersionIncrease client req s).2 := by
  unfold checkVersionIncrease
  suffices hgen : ∀ (l : List FileInfo) (acc : List VersionCheckResult) (s1 : StorageState),
      pathIndexOK s1 →
      pathIndexOK (l.foldl (fun acc fi =>
        let (r, s') := checkOne client acc.2 fi
        (acc.1 ++ [r], s')) (acc, s1)).2 by
    exact hgen req.files [] s h
  intro l
  induction l with
  | nil => intro acc s1 h1; exact h1
  | cons fi rest ih =>
      intro acc s1 h1
      refine ih _ (checkOne client s1 fi).2 ?_
      rcases checkOne_state_or client s1 fi with he | ⟨_, _, he⟩ <;> rw [he]
      · exact h1
      · exact setLastTry_pathIndexOK s1 fi.directory_id _ fi.first_try_time client h1

theorem lockOne_pathIndexOK (client : String) (now : Nat) (s : StorageState) (fi : FileInfo)
    (h : pathIndexOK s) : pathIndexOK (lockOne client now s fi) := by
  unfold lockOne
  split
  · exact h
  next dir hdir =>
    split
    · exact h
    next fid f hres =>
      dsimp only
      refine pathIndexOK_of_pointwise ?_ ?_ h
      · intro d'
        refine paths_insert_dir s.directories fi.directory_id dir _ hdir ?_ d'
        rfl
      · intro d' fid'
        rw [fileOf_set_file s _ fi.directory_id dir fid _ dir.id _ hdir]
        split
        next hc =>
          have hof : fileOf s d' fid' = some f := by
            rw [hc.1, hc.2]
            simp [fileOf, hdir, resolveLockApply_lookup hres]
          rw [hof]
          rfl
        · rfl

theorem lockFilesForWrite_pathIndexOK (client : String) (req : AskVersionIncrease)
    (now : Nat) (s : StorageState) (h : pathIndexOK s) :
    pathIndexOK (lockFilesForWrite client req now s) := by
  unfold lockFilesForWrite
  suffices hgen : ∀ (l : List FileInfo) (s1 : StorageState), pathIndexOK s1 →
      pathIndexOK (l.foldl (lockOne client now) s1) by
    exact hgen req.files s h
  intro l
  induction l with
  | nil => intro s1 h1; exact h1
  | cons fi rest ih =>
      intro s1 h1
      exact ih (lockOne client now s1 fi) (lockOne_pathIndexOK client now s1 fi h1)

theorem unlockOne_pathIndexOK (client : String) (s : StorageState) (fi : FileInfo)
    (h : pathIndexOK s) : pathIndexOK (unlockOne client s fi) := by
  unfold unlockOne
  split
  · exact h
  next dir hdir =>
    split
    · exact h
    next f hf =>
      split
      · dsimp only
        refine pathIndexOK_of_pointwise ?_ ?_ h
        · intro d'
          refine paths_insert_dir s.directories fi.directory_id dir _ hdir ?_ d'
          rfl
        · intro d' fid'
          have hf' : lookupS dir.files fi.id = some f := by
            revert hf
            split
            · intro hh; exact hh
            · intro hh; cases hh
          rw [fileOf_set_file s _ fi.directory_id dir fi.id _ dir.id _ hdir]
          split
          next hc =>
            have hof : fileOf s d' fid' = some f := by
              rw [hc.1, hc.2]
              simp [fileOf, hdir, hf']
            rw [hof]
            rfl
          · rfl
      · exact h

theorem releaseLocks_pathIndexOK (client : String) (s : StorageState)
    (h : pathIndexOK s) : pathIndexOK (releaseLocks client s) := by
  refine pathIndexOK_of_pointwise ?_ ?_ h
  · intro d
    unfold releaseLocks
    rw [lookupS_mapF]
    cases lookupS s.directories d <;> rfl
  · intro d fid
    rw [releaseLocks_fileOf]
    cases fileOf s d fid with
    | none => rfl
    | some f =>
        simp only [Option.map_some']
        split <;> rfl

theorem checkStaleLocks_pathIndexOK (now timeout : Nat) (s : StorageState)
    (h : pathIndexOK s) : pathIndexOK (checkStaleLocks now timeout s) := by
  refine pathIndexOK_of_pointwise ?_ ?_ h
  · intro d
    unfold checkStaleLocks
    rw [lookupS_mapF]
    cases lookupS s.directories d <;> rfl
  · intro d fid
    rw [checkStaleLocks_fileOf]
    cases fileOf s d fid with
    | none => rfl
    | some f =>
        simp only [Option.map_some']
        split <;> rfl

/-- Occupancy precondition of one commit entry: the committed path is not
indexed to a different file, the old path of the located record is not
indexed to a different file, and a minted id is unused in the directory. -/
def ApplyPre (fresh : Nat → String) (s : StorageState) (k : Nat) (fi : FileInfo) : Prop :=
  ∀ dir, lookupS s.directories fi.directory_id = some dir →
    (∀ fid f, resolveLockApply dir fi = some (fid, f) →
        (lookupS dir.path_to_id fi.current_path = none
          ∨ lookupS dir.path_to_id fi.current_path = some fid)
        ∧ (f.current_path = fi.current_path
          ∨ lookupS dir.path_to_id f.current_path = none
          ∨ lookupS dir.path_to_id f.current_path = some fid))
    ∧ (resolveLockApply dir fi = none →
        lookupS dir.files (fresh k) = none
        ∧ (fi.deleted = true ∨ lookupS dir.path_to_id fi.current_path = none))

theorem applyOne_pathIndexOK (client : String) (contents : List (String × List Nat))
    (fresh : Nat → String) (s : StorageState) (k : Nat) (fi : FileInfo)
    (h : pathIndexOK s) (hpre : ApplyPre fresh s k fi) :
    pathIndexOK (applyOne client contents fresh s k fi).1 := by
  unfold applyOne
  split
  · exact h
  next dir hdir =>
    obtain ⟨hA, hB⟩ := h fi.directory_id dir hdir
    split
    next fid f hres =>
      dsimp only
      obtain ⟨hocc, holdp⟩ := (hpre dir hdir).1 fid f hres
      have hflk := resolveLockApply_lookup hres
      have hfileS : fileOf s fi.directory_id fid = some f := by
        simp [fileOf, hdir, hflk]
      -- lookups through p1
      have hp1ne : ∀ p, p ≠ f.current_path →
          lookupS (if f.current_path ≠ fi.current_path then
              eraseS dir.path_to_id f.current_path else dir.path_to_id) p
            = lookupS dir.path_to_id p := by
        intro p hp
        by_cases hch : f.current_path = fi.current_path
        · rw [if_neg (by simp [hch])]
        · rw [if_pos hch]
          exact lookupS_eraseS_ne _ _ _ (fun hh => hp hh.symm)
      have hp1eq : ∀ p, p = f.current_path → f.current_path = fi.current_path →
          lookupS (if f.current_path ≠ fi.current_path then
              eraseS dir.path_to_id f.current_path else dir.path_to_id) p
            = lookupS dir.path_to_id p := by
        intro p _ hch
        rw [if_neg (by simp [hch])]
      have hp1none : f.current_path ≠ fi.current_path →
          lookupS (if f.current_path ≠ fi.current_path then
              eraseS dir.path_to_id f.current_path else dir.path_to_id) f.current_path
            = none := by
        intro hch
        rw [if_pos hch]
        exact lookupS_eraseS_self _ _
      intro dq dirq hdirq
      by_cases hdq : dq = fi.directory_id
      case neg =>
        rw [lookupS_insertS_ne _ _ _ _ (fun hh => hdq hh.symm)] at hdirq
        obtain ⟨hA', hB'⟩ := h dq dirq hdirq
        constructor
        · intro fid0 f0 hf0 hdel0
          rw [fileOf_set_file s _ fi.directory_id dir fid _ dir.id _ hdir,
            if_neg (fun hc => hdq hc.1)] at hf0
          exact hA' fid0 f0 hf0 hdel0
        · intro p fid0 hp
          obtain ⟨f0, hf0, hd0, hp0⟩ := hB' p fid0 hp
          refine ⟨f0, ?_, hd0, hp0⟩
          rw [fileOf_set_file s _ fi.directory_id dir fid _ dir.id _ hdir,
            if_neg (fun hc => hdq hc.1)]
          exact hf0
      case pos =>
        subst hdq
        rw [lookupS_insertS_self] at hdirq
        cases hdirq
        dsimp only
        constructor
        · -- every non-deleted record is indexed
          intro fid0 f0 hf0 hdel0
          rw [fileOf_set_file s _ fi.directory_id dir fid _ dir.id _ hdir] at hf0
          by_cases hfid0 : fid0 = fid
          · rw [if_pos ⟨rfl, hfid0⟩] at hf0
            cases hf0
            subst hfid0
            -- the committed record sits at the committed path
            simp only at hdel0
            rw [if_neg (by simp [hdel0])]
            simp
          · rw [if_neg (fun hc => hfid0 hc.2)] at hf0
            have hidx := hA fid0 f0 hf0 hdel0
            have hne1 : f0.current_path ≠ fi.current_path := by
              intro hh
              rw [hh] at hidx
              rcases hocc with hocc | hocc
              · rw [hocc] at hidx; cases hidx
              · rw [hocc] at hidx
                exact hfid0 (Eq.symm (by simpa using hidx))
            have hne2 : f0.current_path ≠ f.current_path ∨ f.current_path = fi.current_path := by
              by_cases hch : f.current_path = fi.current_path
              · exact Or.inr hch
              · left
                intro hh
                rcases holdp with hp' | hp' | hp'
                · exact hch hp'
                · rw [hh] at hidx; rw [hp'] at hidx; cases hidx
                · rw [hh] at hidx; rw [hp'] at hidx
                  exact hfid0 (Eq.symm (by simpa using hidx))
            have hp1 : lookupS (if f.current_path ≠ fi.current_path then
                eraseS dir.path_to_id f.current_path else dir.path_to_id) f0.current_path
                  = some fid0 := by
              rcases hne2 with hne2 | hne2
              · rw [hp1ne _ hne2]; exact hidx
              · by_cases hpp : f0.current_path = f.current_path
                · rw [hp1eq _ hpp hne2]; exact hidx
                · rw [hp1ne _ hpp]; exact hidx
            by_cases hdel : fi.deleted
            · rw [if_pos hdel]
              rw [lookupS_eraseS_ne _ _ _ (fun hh => hne1 hh.symm)]
              exact hp1
            · rw [if_neg hdel]
              rw [lookupS_insertS_ne _ _ _ _ (fun hh => hne1 hh.symm)]
              exact hp1
        · -- every index entry points at a matching record
          intro p fid0 hp
          by_cases hdel : fi.deleted
          · rw [if_pos hdel] at hp
            have hpne : p ≠ fi.current_path := by
              intro hh
              rw [hh] at hp
              rw [lookupS_eraseS_self] at hp
              cases hp
            rw [lookupS_eraseS_ne _ _ _ (fun hh => hpne hh.symm)] at hp
            -- now a p1 lookup
            have hch : f.current_path ≠ fi.current_path ∨ f.current_path = fi.current_path := by
              tauto
            have hporig : lookupS dir.path_to_id p = some fid0 ∧ p ≠ f.current_path ∨
                (¬ f.current_path ≠ fi.current_path ∧ lookupS dir.path_to_id p = some fid0) := by
              by_cases hch2 : f.current_path ≠ fi.current_path
              · rw [if_pos hch2] at hp
                by_cases hpf : p = f.current_path
                · rw [hpf, lookupS_eraseS_self] at hp; cases hp
                · left
                  exact ⟨by rw [← lookupS_eraseS_ne dir.path_to_id f.current_path p
                      (fun hh => hpf hh.symm)]; exact hp, hpf⟩
              · rw [if_neg hch2] at hp
                exact Or.inr ⟨hch2, hp⟩
            have hporig' : lookupS dir.path_to_id p = some fid0 := by
              rcases hporig with ⟨hh, _⟩ | ⟨_, hh⟩ <;> exact hh
            obtain ⟨f0, hf0, hd0, hp0⟩ := hB p fid0 hporig'
            have hfid0 : fid0 ≠ fid := by
              intro hh
              subst hh
              rw [hfileS] at hf0
              cases hf0
              -- then f is non-deleted at p; the old-path erase or the commit erase hits it
              rcases hporig with ⟨_, hpf⟩ | ⟨hch2, _⟩
              · exact hpf hp0.symm
              · simp only [not_not] at hch2
                exact hpne (hp0.symm.trans hch2)
            refine ⟨f0, ?_, hd0, hp0⟩
            rw [fileOf_set_file s _ fi.directory_id dir fid _ dir.id _ hdir,
              if_neg (fun hc => hfid0 hc.2)]
            exact hf0
          · rw [if_neg hdel] at hp
            by_cases hpfi : p = fi.current_path
            · subst hpfi
              rw [lookupS_insertS_self] at hp
              cases hp
              rw [fileOf_set_file s _ fi.directory_id dir fid _ dir.id _ hdir,
                if_pos ⟨rfl, rfl⟩]
              refine ⟨_, rfl, ?_, ?_⟩
              · simpa using hdel
              · rfl
            · rw [lookupS_insertS_ne _ _ _ _ (fun hh => hpfi hh.symm)] at hp
              have hporig : lookupS dir.path_to_id p = some fid0 ∧ p ≠ f.current_path ∨
                  (¬ f.current_path ≠ fi.current_path ∧ lookupS dir.path_to_id p = some fid0) := by
                by_cases hch2 : f.current_path ≠ fi.current_path
                · rw [if_pos hch2] at hp
                  by_cases hpf : p = f.current_path
                  · rw [hpf, lookupS_eraseS_self] at hp; cases hp
                  · left
                    exact ⟨by rw [← lookupS_eraseS_ne dir.path_to_id f.current_path p
                        (fun hh => hpf hh.symm)]; exact hp, hpf⟩
                · rw [if_neg hch2] at hp
                  exact Or.inr ⟨hch2, hp⟩
              have hporig' : lookupS dir.path_to_id p = some fid0 := by
                rcases hporig with ⟨hh, _⟩ | ⟨_, hh⟩ <;> exact hh
              obtain ⟨f0, hf0, hd0, hp0⟩ := hB p fid0 hporig'
              have hfid0 : fid0 ≠ fid := by
                intro hh
                subst hh
                rw [hfileS] at hf0
                cases hf0
                rcases hporig with ⟨_, hpf⟩ | ⟨hch2, _⟩
                · exact hpf hp0.symm
                · simp only [not_not] at hch2
                  exact hpfi ((hp0.symm).trans hch2)
              refine ⟨f0, ?_, hd0, hp0⟩
              rw [fileOf_set_file s _ fi.directory_id dir fid _ dir.id _ hdir,
                if_neg (fun hc => hfid0 hc.2)]
              exact hf0
    next hres =>
      dsimp only
      obtain ⟨hfresh, hnocc⟩ := (hpre dir hdir).2 hres
      intro dq dirq hdirq
      by_cases hdq : dq = fi.directory_id
      case neg =>
        rw [lookupS_insertS_ne _ _ _ _ (fun hh => hdq hh.symm)] at hdirq
        obtain ⟨hA', hB'⟩ := h dq dirq hdirq
        constructor
        · intro fid0 f0 hf0 hdel0
          rw [fileOf_set_file s _ fi.directory_id dir (fresh k) _ dir.id _ hdir,
            if_neg (fun hc => hdq hc.1)] at hf0
          exact hA' fid0 f0 hf0 hdel0
        · intro p fid0 hp
          obtain ⟨f0, hf0, hd0, hp0⟩ := hB' p fid0 hp
          refine ⟨f0, ?_, hd0, hp0⟩
          rw [fileOf_set_file s _ fi.directory_id dir (fresh k) _ dir.id _ hdir,
            if_neg (fun hc => hdq hc.1)]
          exact hf0
      case pos =>
        subst hdq
        rw [lookupS_insertS_self] at hdirq
        cases hdirq
        dsimp only
        constructor
        · intro fid0 f0 hf0 hdel0
          rw [fileOf_set_file s _ fi.directory_id dir (fresh k) _ dir.id _ hdir] at hf0
          by_cases hfid0 : fid0 = fresh k
          · rw [if_pos ⟨rfl, hfid0⟩] at hf0
            cases hf0
            subst hfid0
            simp only at hdel0
            rw [if_neg (by simp [hdel0])]
            simp
          · rw [if_neg (fun hc => hfid0 hc.2)] at hf0
            have hidx := hA fid0 f0 hf0 hdel0
            by_cases hdel : fi.deleted
            · rw [if_pos (by simpa using hdel)]
              exact hidx
            · rw [if_neg (by simpa using hdel)]
              have hne1 : f0.current_path ≠ fi.current_path := by
                intro hh
                rcases hnocc with hnocc | hnocc
                · exact hdel (by simpa using hnocc)
                · rw [hh, hnocc] at hidx
                  cases hidx
              rw [lookupS_insertS_ne _ _ _ _ (fun hh => hne1 hh.symm)]
              exact hidx
        · intro p fid0 hp
          by_cases hdel : fi.deleted
          · rw [if_pos (by simpa using hdel)] at hp
            obtain ⟨f0, hf0, hd0, hp0⟩ := hB p fid0 hp
            have hfid0 : fid0 ≠ fresh k := by
              intro hh
              subst hh
              simp only [fileOf, hdir, Option.some_bind, hfresh] at hf0
              cases hf0
            refine ⟨f0, ?_, hd0, hp0⟩
            rw [fileOf_set_file s _ fi.directory_id dir (fresh k) _ dir.id _ hdir,
              if_neg (fun hc => hfid0 hc.2)]
            exact hf0
          · rw [if_neg (by simpa using hdel)] at hp
            by_cases hpfi : p = fi.current_path
            · subst hpfi
              rw [lookupS_insertS_self] at hp
              cases hp
              rw [fileOf_set_file s _ fi.directory_id dir (fresh k) _ dir.id _ hdir,
                if_pos ⟨rfl, rfl⟩]
              refine ⟨_, rfl, ?_, ?_⟩
              · simpa using hdel
              · rfl
            · rw [lookupS_insertS_ne _ _ _ _ (fun hh => hpfi hh.symm)] at hp
              obtain ⟨f0, hf0, hd0, hp0⟩ := hB p fid0 hp
              have hfid0 : fid0 ≠ fresh k := by
                intro hh
                subst hh
                simp only [fileOf, hdir, Option.some_bind, hfresh] at hf0
                cases hf0
              refine ⟨f0, ?_, hd0, hp0⟩
              rw [fileOf_set_file s _ fi.directory_id dir (fresh k) _ dir.id _ hdir,
                if_neg (fun hc => hfid0 hc.2)]
              exact hf0

/-- The per-entry occupancy preconditions, threaded along a commit's loop. -/
def ApplyPreAll (client : String) (contents : List (String × List Nat))
    (fresh : Nat → String) : StorageState → Nat → List FileInfo → Prop
  | _, _, [] => True
  | s, k, fi :: rest =>
      ApplyPre fresh s k fi
      ∧ ApplyPreAll client contents fresh (applyOne client contents fresh s k fi).1
          (applyOne client contents fresh s k fi).2.1 rest

theorem pathIndexOK_backups {dirs : List (String × Directory)}
    {b1 b2 : List (String × List (String × StoredFile))}
    (h : pathIndexOK ⟨dirs, b1⟩) : pathIndexOK ⟨dirs, b2⟩ := h

theorem applyVersionIncrease_pathIndexOK (client : String) (req : AskVersionIncrease)
    (contents : List (String × List Nat)) (fresh : Nat → String) (s : StorageState)
    (h : pathIndexOK s) (hpre : ApplyPreAll client contents fresh s 0 req.files) :
    pathIndexOK (applyVersionIncrease client req contents fresh s).2 := by
  unfold applyVersionIncrease
  suffices hgen : ∀ (l : List FileInfo) (acc : StorageState × Nat × List FileMetadata),
      pathIndexOK acc.1 → ApplyPreAll client contents fresh acc.1 acc.2.1 l →
      pathIndexOK (l.foldl (applyStep client contents fresh) acc).1 by
    have hfold := hgen req.files (s, 0, []) h hpre
    dsimp only
    cases hst : (req.files.foldl (applyStep client contents fresh) (s, 0, [])).1
    rw [hst] at hfold
    exact pathIndexOK_backups hfold
  intro l
  induction l with
  | nil => intro acc h1 _; exact h1
  | cons fi rest ih =>
      intro acc h1 hpre1
      exact ih (applyStep client contents fresh acc fi)
        (applyOne_pathIndexOK client contents fresh acc.1 acc.2.1 fi h1 hpre1.1)
        hpre1.2

/-- The agreement condition under which a rollback's restores keep the path
index consistent: every backed-up snapshot of the client matches the live
record on `current_path` and `deleted` (true whenever nothing committed
between the lock and the rollback). -/
def RollbackAgrees (client : String) (s : StorageState) : Prop :=
  ∀ bmap, lookupS s.backups client = some bmap →
    ∀ e ∈ bmap, ∀ g, fileOf s e.2.directory_id e.1 = some g →
      g.current_path = e.2.current_path ∧ g.deleted = e.2.deleted

theorem restoreBackup_pointwise (s : StorageState) (e : String × StoredFile)
    (hag : ∀ g, fileOf s e.2.directory_id e.1 = some g →
        g.current_path = e.2.current_path ∧ g.deleted = e.2.deleted) :
    (∀ d, (lookupS (restoreBackup s e).directories d).map Directory.path_to_id
        = (lookupS s.directories d).map Directory.path_to_id)
    ∧ (∀ d fid, (fileOf (restoreBackup s e) d fid).map pdOf = (fileOf s d fid).map pdOf) := by
  unfold restoreBackup
  split
  · exact ⟨fun d => rfl, fun d fid => rfl⟩
  next dir hdir =>
    split
    · exact ⟨fun d => rfl, fun d fid => rfl⟩
    next g hg =>
      constructor
      · intro d
        refine paths_insert_dir s.directories e.2.directory_id dir _ hdir ?_ d
        rfl
      · intro d fid
        rw [fileOf_set_file s _ e.2.directory_id dir e.1 _ dir.id _ hdir]
        split
        next hc =>
          have hof : fileOf s d fid = some g := by
            rw [hc.1, hc.2]
            simp [fileOf, hdir, hg]
          obtain ⟨hp, hd⟩ := hag g (by simpa [fileOf, hdir] using hg)
          rw [hof]
          simp [pdOf, hp, hd]
        · rfl

theorem restore_fold_pointwise (bmap : List (String × StoredFile)) :
    ∀ (s : StorageState),
      (∀ e ∈ bmap, ∀ g, fileOf s e.2.directory_id e.1 = some g →
          g.current_path = e.2.current_path ∧ g.deleted = e.2.deleted) →
      (∀ d, (lookupS (bmap.foldl restoreBackup s).directories d).map Directory.path_to_id
          = (lookupS s.directories d).map Directory.path_to_id)
      ∧ (∀ d fid, (fileOf (bmap.foldl restoreBackup s) d fid).map pdOf
          = (fileOf s d fid).map pdOf) := by
  induction bmap with
  | nil => intro s _; exact ⟨fun d => rfl, fun d fid => rfl⟩
  | cons e rest ih =>
      intro s hag
      obtain ⟨hpaths1, hpd1⟩ :=
        restoreBackup_pointwise s e (hag e (List.mem_cons_self e rest))
      have hag2 : ∀ e' ∈ rest, ∀ g', fileOf (restoreBackup s e) e'.2.directory_id e'.1 = some g' →
          g'.current_path = e'.2.current_path ∧ g'.deleted = e'.2.deleted := by
        intro e' he' g' hg'
        have hpd := hpd1 e'.2.directory_id e'.1
        rw [hg'] at hpd
        cases hof : fileOf s e'.2.directory_id e'.1 with
        | none => rw [hof] at hpd; cases hpd
        | some g =>
            rw [hof] at hpd
            simp only [Option.map_some', pdOf, Option.some.injEq, Prod.mk.injEq] at hpd
            obtain ⟨hpg, hdg⟩ := hag e' (List.mem_cons_of_mem e he') g hof
            exact ⟨hpd.1.trans hpg, hpd.2.trans hdg⟩
      obtain ⟨hpaths2, hpd2⟩ := ih (restoreBackup s e) hag2
      exact ⟨fun d => (hpaths2 d).trans (hpaths1 d),
        fun d fid => (hpd2 d fid).trans (hpd1 d fid)⟩

theorem rollbackUpload_pathIndexOK (client : String) (req : AskVersionIncrease)
    (s : StorageState) (h : pathIndexOK s) (hag : RollbackAgrees client s) :
    pathIndexOK (rollbackUpload client req s) := by
  unfold rollbackUpload
  have hunlock : ∀ (l : List FileInfo) (s1 : StorageState), pathIndexOK s1 →
      pathIndexOK (l.foldl (unlockOne client) s1) := by
    intro l
    induction l with
    | nil => intro s1 h1; exact h1
    | cons fi rest ih =>
        intro s1 h1
        exact ih (unlockOne client s1 fi) (unlockOne_pathIndexOK client s1 fi h1)
  split
  · exact hunlock req.files s h
  next bmap hb =>
      apply hunlock
      obtain ⟨hpaths, hpd⟩ := restore_fold_pointwise bmap s (hag bmap hb)
      have hres : pathIndexOK (bmap.foldl restoreBackup s) :=
        pathIndexOK_of_pointwise hpaths hpd h
      cases hst : bmap.foldl restoreBackup s
      rw [hst] at hres
      exact pathIndexOK_backups hres

/-- The per-operation precondition of the amended path-index claim. -/
def opPathPre : StorageOp → StorageState → Prop
  | .applyOp client req contents fresh, s => ApplyPreAll client contents fresh s 0 req.files
  | .rollbackOp client _, s => RollbackAgrees client s
  | _, _ => True

/-- C5 (amended): every storage operation preserves the path-index invariant
(each non-deleted file indexed at its `current_path`, every index entry
pointing at a matching non-deleted record), provided each commit entry's
target path and old path are not indexed to a different file and minted ids
are fresh, and each restored backup snapshot agrees with the live record on
`current_path` and `deleted`; the other operations need no precondition. A
commit that moves a file onto a path occupied by a different non-deleted
file violates the invariant instead (see the counterexample). -/
theorem pathIndex_preserved (op : StorageOp) (s : StorageState)
    (h : pathIndexOK s) (hpre : opPathPre op s) : pathIndexOK (runOp op s) := by
  cases op with
  | checkOp client req => exact checkVersionIncrease_pathIndexOK client req s h
  | lockOp client req now => exact lockFilesForWrite_pathIndexOK client req now s h
  | applyOp client req contents fresh =>
      exact applyVersionIncrease_pathIndexOK client req contents fresh s h hpre
  | rollbackOp client req => exact rollbackUpload_pathIndexOK client req s h hpre
  | staleOp now timeout => exact checkStaleLocks_pathIndexOK now timeout s h
  | releaseOp client => exact releaseLocks_pathIndexOK client s h

/-- C5 (counterexample): committing a rename of file `f` onto path `q`,
which is occupied by the non-deleted file `g`, orphans `g`: the invariant
held before the commit and fails after it — `g` is non-deleted with
`current_path = q` but the directory's index maps `q` to `f`. -/
theorem pathIndex_violated_by_occupied_rename :
    pathIndexOK
      ⟨[("d", { id := "d",
                files := [("f", { id := "f", directory_id := "d", version := 1,
                                  content_changed_version := 1, ftype := .FILE,
                                  current_path := "p", deleted := false, content := [],
                                  status := .FREE, locked_by_client := "",
                                  lock_time := 0, is_being_read := false,
                                  last_try := { time := 0, connection_id := "" } }),
                          ("g", { id := "g", directory_id := "d", version := 1,
                                  content_changed_version := 1, ftype := .FILE,
                                  current_path := "q", deleted := false, content := [],
                                  status := .FREE, locked_by_client := "",
                                  lock_time := 0, is_being_read := false,
                                  last_try := { time := 0, connection_id := "" } })],
                path_to_id := [("p", "f"), ("q", "g")] })], []⟩
    ∧ ¬ pathIndexOK
        (applyVersionIncrease "c"
          ⟨[{ id := "f", directory_id := "d", current_path := "q", ftype := .FILE,
              deleted := false, content_changed := false, first_try_time := 0 }]⟩ []
          (fun _ => "n0")
          ⟨[("d", { id := "d",
                    files := [("f", { id := "f", directory_id := "d", version := 1,
                                      content_changed_version := 1, ftype := .FILE,
                                      current_path := "p", deleted := false, content := [],
                                      status := .FREE, locked_by_client := "",
                                      lock_time := 0, is_being_read := false,
                                      last_try := { time := 0, connection_id := "" } }),
                              ("g", { id := "g", directory_id := "d", version := 1,
                                      content_changed_version := 1, ftype := .FILE,
                                      current_path := "q", deleted := false, content := [],
                                      status := .FREE, locked_by_client := "",
                                      lock_time := 0, is_being_read := false,
                                      last_try := { time := 0, connection_id := "" } })],
                    path_to_id := [("p", "f"), ("q", "g")] })], []⟩).2 := by
  constructor
  · exact pathIndexOK_of_b (by decide)
  · intro hcon
    have hdir := hcon "d" _ rfl
    have hg := hdir.1 "g" _ rfl rfl
    exact absurd hg (by decide)

/-- C5 (witness): the preservation theorem applied to a concrete
`CheckVersionIncrease` operation on a two-file state satisfying the
invariant. -/
theorem pathIndex_preserved_witness :
    pathIndexOK
      (runOp
        (StorageOp.checkOp "c"
          ⟨[{ id := "f", directory_id := "d", current_path := "p", ftype := .FILE,
              deleted := false, content_changed := true, first_try_time := 7 }]⟩)
        ⟨[("d", { id := "d",
                  files := [("f", { id := "f", directory_id := "d", version := 1,
                                    content_changed_version := 1, ftype := .FILE,
                                    current_path := "p", deleted := false, content := [],
                                    status := .FREE, locked_by_client := "",
                                    lock_time := 0, is_being_read := false,
                                    last_try := { time := 0, connection_id := "" } })],
                  path_to_id := [("p", "f")] })], []⟩) :=
  pathIndex_preserved
    (StorageOp.checkOp "c"
      ⟨[{ id := "f", directory_id := "d", current_path := "p", ftype := .FILE,
          deleted := false, content_changed := true, first_try_time := 7 }]⟩)
    ⟨[("d", { id := "d",
              files := [("f", { id := "f", directory_id := "d", version := 1,
                                content_changed_version := 1, ftype := .FILE,
                                current_path := "p", deleted := false, content := [],
                                status := .FREE, locked_by_client := "",
                                lock_time := 0, is_being_read := false,
                                last_try := { time := 0, connection_id := "" } })],
              path_to_id := [("p", "f")] })], []⟩
    (pathIndexOK_of_b (by decide)) trivial

/-! ## C3 — rollback completeness after a lock -/

/-- Membership in `insertS` comes from the old map or is the new pair. -/
theorem mem_insertS {α : Type} {m : List (String × α)} {k : String} {v : α} {e : String × α}
    (h : e ∈ insertS m k v) : e ∈ m ∨ e = (k, v) := by
  induction m with
  | nil =>
      simp only [insertS, List.mem_singleton] at h
      exact Or.inr h
  | cons e0 rest ih =>
      obtain ⟨k0, v0⟩ := e0
      by_cases hk : k0 = k
      · simp only [insertS, if_pos hk] at h
        rcases List.mem_cons.mp h with h | h
        · exact Or.inr h
        · exact Or.inl (List.mem_cons_of_mem _ h)
      · simp only [insertS, if_neg hk] at h
        rcases List.mem_cons.mp h with h | h
        · exact Or.inl (by rw [h]; exact List.mem_cons_self _ _)
        · rcases ih h with h' | h'
          · exact Or.inl (List.mem_cons_of_mem _ h')
          · exact Or.inr h'

/-- The file id a `LockFilesForWrite` / `ApplyVersionIncrease` request entry
resolves to in a given state. -/
def resolvedFid (s : StorageState) (fi : FileInfo) : Option String :=
  match lookupS s.directories fi.directory_id with
  | none => none
  | some dir => (resolveLockApply dir fi).map Prod.fst

/-- Invariant relating the state during the `LockFilesForWrite` loop to the
pre-lock state: path indices unchanged; every record is untouched or is the
blocked copy of a record whose original is backed up for the client; and
every backup entry is the original of a still-present record. -/
def LockInv (client : String) (now : Nat) (s cur : StorageState) : Prop :=
  (∀ d, (lookupS cur.directories d).map Directory.path_to_id
      = (lookupS s.directories d).map Directory.path_to_id)
  ∧ (∀ d fid, fileOf cur d fid = fileOf s d fid
      ∨ ∃ f, fileOf s d fid = some f ∧ f.directory_id = d
          ∧ fileOf cur d fid = some { f with status := FileStatus.BLOCKED,
                                             locked_by_client := client, lock_time := now }
          ∧ ∃ bmap, lookupS cur.backups client = some bmap ∧ lookupS bmap fid = some f)
  ∧ (∀ bmap, lookupS cur.backups client = some bmap → ∀ e ∈ bmap,
      fileOf s e.2.directory_id e.1 = some e.2 ∧ fileOf cur e.2.directory_id e.1 ≠ none)

theorem lockInv_files_isSome {client : String} {now : Nat} {s cur : StorageState}
    (h : LockInv client now s cur) (d fid : String) :
    (fileOf cur d fid).isSome = (fileOf s d fid).isSome := by
  rcases h.2.1 d fid with heq | ⟨f, hsf, _, hcf, _⟩
  · rw [heq]
  · rw [hsf, hcf]
    rfl

theorem resolvedFid_stable {client : String} {now : Nat} {s cur : StorageState}
    (h : LockInv client now s cur) (fi : FileInfo) :
    resolvedFid cur fi = resolvedFid s fi := by
  unfold resolvedFid
  cases hc : lookupS cur.directories fi.directory_id with
  | none =>
      cases hs : lookupS s.directories fi.directory_id with
      | none => rfl
      | some ds =>
          have hp := h.1 fi.directory_id
          rw [hc, hs] at hp
          simp at hp
  | some dc =>
      cases hs : lookupS s.directories fi.directory_id with
      | none =>
          have hp := h.1 fi.directory_id
          rw [hc, hs] at hp
          simp at hp
      | some ds =>
          have hp := h.1 fi.directory_id
          rw [hc, hs] at hp
          have hpp : dc.path_to_id = ds.path_to_id := by simpa using hp
          show (resolveLockApply dc fi).map Prod.fst = (resolveLockApply ds fi).map Prod.fst
          unfold resolveLockApply
          by_cases hid : fi.id ≠ ""
          · rw [if_pos hid, if_pos hid]
            have hiso : (lookupS dc.files fi.id).isSome = (lookupS ds.files fi.id).isSome := by
              have h2 := lockInv_files_isSome h fi.directory_id fi.id
              simpa [fileOf, hc, hs] using h2
            cases h1 : lookupS dc.files fi.id with
            | none =>
                cases h2 : lookupS ds.files fi.id with
                | none => rfl
                | some f2 => rw [h1, h2] at hiso; simp at hiso
            | some f1 =>
                cases h2 : lookupS ds.files fi.id with
                | none => rw [h1, h2] at hiso; simp at hiso
                | some f2 => rfl
          · rw [if_neg hid, if_neg hid]
            by_cases hcp : fi.current_path ≠ ""
            · rw [if_pos hcp, if_pos hcp, hpp]
              cases hpid : lookupS ds.path_to_id fi.current_path with
              | none => rfl
              | some pid =>
                  dsimp only
                  have hiso : (lookupS dc.files pid).isSome = (lookupS ds.files pid).isSome := by
                    have h2 := lockInv_files_isSome h fi.directory_id pid
                    simpa [fileOf, hc, hs] using h2
                  cases h1 : lookupS dc.files pid with
                  | none =>
                      cases h2 : lookupS ds.files pid with
                      | none => rfl
                      | some f2 => rw [h1, h2] at hiso; simp at hiso
                  | some f1 =>
                      cases h2 : lookupS ds.files pid with
                      | none => rw [h1, h2] at hiso; simp at hiso
                      | some f2 => rfl
            · rw [if_neg hcp, if_neg hcp]

theorem lockOne_noop_of_none {client : String} {now : Nat} {cur : StorageState} {fi : FileInfo}
    (h : resolvedFid cur fi = none) : lockOne client now cur fi = cur := by
  unfold resolvedFid at h
  unfold lockOne
  cases hd : lookupS cur.directories fi.directory_id with
  | none => rfl
  | some dir =>
      rw [hd] at h
      dsimp only at h ⊢
      cases hr : resolveLockApply dir fi with
      | none => rfl
      | some p =>
          rw [hr] at h
          simp at h

theorem resolvedFid_some {cur : StorageState} {fi : FileInfo} {fid0 : String}
    (h : resolvedFid cur fi = some fid0) :
    ∃ dir f, lookupS cur.directories fi.directory_id = some dir
      ∧ resolveLockApply dir fi = some (fid0, f) := by
  unfold resolvedFid at h
  cases hd : lookupS cur.directories fi.directory_id with
  | none => rw [hd] at h; simp at h
  | some dir =>
      rw [hd] at h
      dsimp only at h
      cases hr : resolveLockApply dir fi with
      | none => rw [hr] at h; cases h
      | some p =>
          obtain ⟨pf, ps⟩ := p
          rw [hr] at h
          simp only [Option.map_some', Option.some.injEq] at h
          subst h
          exact ⟨dir, ps, rfl, hr⟩

/-- The shape of one successful `LockFilesForWrite` iteration. -/
theorem lockOne_eq {client : String} {now : Nat} {cur : StorageState} {fi : FileInfo}
    {dir : Directory} {fid0 : String} {fcur : StoredFile}
    (hdir : lookupS cur.directories fi.directory_id = some dir)
    (hra : resolveLockApply dir fi = some (fid0, fcur)) :
    lockOne client now cur fi
      = ⟨insertS cur.directories fi.directory_id
            { id := dir.id,
              files := insertS dir.files fid0
                { fcur with status := FileStatus.BLOCKED, locked_by_client := client,
                            lock_time := now },
              path_to_id := dir.path_to_id },
          insertS cur.backups client
            (insertS ((lookupS cur.backups client).getD []) fid0 fcur)⟩ := by
  unfold lockOne
  rw [hdir]
  dsimp only
  rw [hra]

/-- One successful lock iteration preserves `LockInv` and keeps not-yet-seen
file ids out of the client's backups. -/
theorem lockOne_inv {client : String} {now : Nat} {s cur : StorageState} {fi : FileInfo}
    {fid0 : String}
    (hwf : ∀ d fid f, fileOf s d fid = some f → f.directory_id = d)
    (hInv : LockInv client now s cur)
    (hres : resolvedFid s fi = some fid0)
    (hnotb : ∀ bmap, lookupS cur.backups client = some bmap → lookupS bmap fid0 = none) :
    LockInv client now s (lockOne client now cur fi)
    ∧ ∀ bmap, lookupS (lockOne client now cur fi).backups client = some bmap →
        ∀ fid', fid' ≠ fid0 →
          (∀ bm, lookupS cur.backups client = some bm → lookupS bm fid' = none) →
          lookupS bmap fid' = none := by
  obtain ⟨dir, fcur, hdir, hra⟩ := resolvedFid_some ((resolvedFid_stable hInv fi).trans hres)
  have hfl := resolveLockApply_lookup hra
  have hfcur : fileOf cur fi.directory_id fid0 = some fcur := by
    simp [fileOf, hdir, hfl]
  have hfs : fileOf s fi.directory_id fid0 = some fcur := by
    rcases hInv.2.1 fi.directory_id fid0 with h | ⟨f, _, _, _, bm, hbm0, hlkb⟩
    · rw [← h]; exact hfcur
    · have hn := hnotb bm hbm0
      rw [hn] at hlkb
      cases hlkb
  have hdid0 : fcur.directory_id = fi.directory_id := hwf _ _ _ hfs
  rw [lockOne_eq hdir hra]
  constructor
  · refine ⟨?_, ?_, ?_⟩
    · intro d
      refine (paths_insert_dir cur.directories fi.directory_id dir _ hdir ?_ d).trans
        (hInv.1 d)
      rfl
    · intro d fid
      by_cases ht : d = fi.directory_id ∧ fid = fid0
      · obtain ⟨hd1, hf1⟩ := ht
        subst hd1
        have hf2 := hf1.symm
        subst hf2
        rw [fileOf_set_file cur _ fi.directory_id dir fid0 _ dir.id _ hdir,
            if_pos ⟨rfl, rfl⟩]
        exact Or.inr ⟨fcur, hfs, hdid0, rfl, _, lookupS_insertS_self _ _ _,
          lookupS_insertS_self _ _ _⟩
      · rw [fileOf_set_file cur _ fi.directory_id dir fid0 _ dir.id _ hdir, if_neg ht]
        rcases hInv.2.1 d fid with h | ⟨f, hsf, hdidf, hcf, bm, hbm0, hlkb⟩
        · exact Or.inl h
        · have hne : fid ≠ fid0 := by
            intro h0
            have hn := hnotb bm hbm0
            rw [h0, hn] at hlkb
            cases hlkb
          have hb0 : (lookupS cur.backups client).getD [] = bm := by rw [hbm0]; rfl
          refine Or.inr ⟨f, hsf, hdidf, hcf, _, lookupS_insertS_self _ _ _, ?_⟩
          rw [lookupS_insertS_ne _ _ _ _ (fun h => hne h.symm), hb0]
          exact hlkb
    · intro bmap' hb' e he'
      have hb2 : some (insertS ((lookupS cur.backups client).getD []) fid0 fcur)
          = some bmap' := (lookupS_insertS_self cur.backups client _).symm.trans hb'
      have hbn := Option.some.inj hb2
      subst hbn
      rcases mem_insertS he' with he | he
      · cases hbc : lookupS cur.backups client with
        | none =>
            rw [hbc] at he
            simp at he
        | some bm =>
            rw [hbc] at he
            simp only [Option.getD_some] at he
            have hold := hInv.2.2 bm hbc e he
            refine ⟨hold.1, ?_⟩
            rw [fileOf_set_file cur _ fi.directory_id dir fid0 _ dir.id _ hdir]
            split
            · simp
            · exact hold.2
      · subst he
        refine ⟨?_, ?_⟩
        · show fileOf s fcur.directory_id fid0 = some fcur
          rw [hdid0]
          exact hfs
        · rw [fileOf_set_file cur _ fi.directory_id dir fid0 _ dir.id _ hdir,
              if_pos ⟨hdid0, rfl⟩]
          simp
  · intro bmap' hb' fid' hne' hprev
    have hb2 : some (insertS ((lookupS cur.backups client).getD []) fid0 fcur)
        = some bmap' := (lookupS_insertS_self cur.backups client _).symm.trans hb'
    have hbn := Option.some.inj hb2
    subst hbn
    rw [lookupS_insertS_ne _ _ _ _ (fun h => hne' h.symm)]
    cases hbc : lookupS cur.backups client with
    | none => rfl
    | some bm => exact hprev bm hbc

theorem lock_fold_inv (client : String) (now : Nat) (s : StorageState)
    (hwf : ∀ d fid f, fileOf s d fid = some f → f.directory_id = d) :
    ∀ (l : List FileInfo) (cur : StorageState),
      LockInv client now s cur →
      ((l.filterMap (resolvedFid s)).Nodup) →
      (∀ fi ∈ l, ∀ fid, resolvedFid s fi = some fid →
        ∀ bmap, lookupS cur.backups client = some bmap → lookupS bmap fid = none) →
      LockInv client now s (l.foldl (lockOne client now) cur) := by
  intro l
  induction l with
  | nil => intro cur hInv _ _; exact hInv
  | cons fi rest ih =>
      intro cur hInv hnd hdisj
      rw [List.foldl_cons]
      cases hres : resolvedFid s fi with
      | none =>
          rw [lockOne_noop_of_none ((resolvedFid_stable hInv fi).trans hres)]
          refine ih cur hInv ?_ ?_
          · simpa only [List.filterMap_cons, hres] using hnd
          · exact fun fi' h' => hdisj fi' (List.mem_cons_of_mem fi h')
      | some fid0 =>
          have hnotb : ∀ bmap, lookupS cur.backups client = some bmap →
              lookupS bmap fid0 = none :=
            fun bmap hb => hdisj fi (List.mem_cons_self fi rest) fid0 hres bmap hb
          obtain ⟨hInv', hprop⟩ := lockOne_inv hwf hInv hres hnotb
          simp only [List.filterMap_cons, hres] at hnd
          have hnd2 := List.nodup_cons.mp hnd
          refine ih (lockOne client now cur fi) hInv' hnd2.2 ?_
          intro fi' hfi' fid' hres' bmap hb
          have hmem' : fid' ∈ rest.filterMap (resolvedFid s) :=
            List.mem_filterMap.mpr ⟨fi', hfi', hres'⟩
          have hne : fid' ≠ fid0 := fun h => hnd2.1 (h ▸ hmem')
          exact hprop bmap hb fid' hne
            (fun bm hbm => hdisj fi' (List.mem_cons_of_mem fi hfi') fid' hres' bm hbm)

/-- Pointwise effect of restoring one backup entry whose record exists. -/
theorem restoreBackup_fileOf {t : StorageState} {e : String × StoredFile}
    (hex : fileOf t e.2.directory_id e.1 ≠ none) (d fid : String) :
    fileOf (restoreBackup t e) d fid
      = if d = e.2.directory_id ∧ fid = e.1 then some e.2 else fileOf t d fid := by
  unfold restoreBackup
  cases hd : lookupS t.directories e.2.directory_id with
  | none => exact absurd (by simp [fileOf, hd]) hex
  | some dir =>
      dsimp only
      cases hf : lookupS dir.files e.1 with
      | none => exact absurd (by simp [fileOf, hd, hf]) hex
      | some g =>
          exact fileOf_set_file t t.backups e.2.directory_id dir e.1 e.2 dir.id
            dir.path_to_id hd d fid

/-- The `RollbackUpload` restore loop rewrites the state back to `s` when
every backup entry is the original of a still-present record and every other
record is untouched. -/
theorem restoreAll_eq (s : StorageState) :
    ∀ (B : List (String × StoredFile)) (t : StorageState),
      (∀ e ∈ B, fileOf s e.2.directory_id e.1 = some e.2) →
      (∀ e ∈ B, fileOf t e.2.directory_id e.1 ≠ none) →
      (∀ d fid, fileOf t d fid = fileOf s d fid
          ∨ ∃ f, (fid, f) ∈ B ∧ f.directory_id = d ∧ fileOf s d fid = some f) →
      ∀ d fid, fileOf (B.foldl restoreBackup t) d fid = fileOf s d fid := by
  intro B
  induction B with
  | nil =>
      intro t _ _ hcov d fid
      rcases hcov d fid with h | ⟨f, hf, _, _⟩
      · exact h
      · cases hf
  | cons e rest ih =>
      intro t hBs hex hcov
      have hexe : fileOf t e.2.directory_id e.1 ≠ none := hex e (List.mem_cons_self e rest)
      have hstep := restoreBackup_fileOf hexe
      rw [List.foldl_cons]
      apply ih (restoreBackup t e)
      · exact fun e' he' => hBs e' (List.mem_cons_of_mem e he')
      · intro e' he'
        rw [hstep e'.2.directory_id e'.1]
        split
        · simp
        · exact hex e' (List.mem_cons_of_mem e he')
      · intro d fid
        rw [hstep d fid]
        split
        next hc =>
            left
            rw [hc.1, hc.2]
            exact (hBs e (List.mem_cons_self e rest)).symm
        next hc =>
            rcases hcov d fid with h | ⟨f, hmem, hdid, hfs⟩
            · exact Or.inl h
            · rcases List.mem_cons.mp hmem with he2 | he2
              · exfalso
                subst he2
                exact hc ⟨hdid.symm, rfl⟩
              · exact Or.inr ⟨f, he2, hdid, hfs⟩

/-- The unlock loop of `RollbackUpload` is a no-op when the client holds no
write lock. -/
theorem unlockOne_noop {client : String} {t : StorageState}
    (h : ∀ d fid f, fileOf t d fid = some f → f.locked_by_client ≠ client)
    (fi : FileInfo) : unlockOne client t fi = t := by
  unfold unlockOne
  cases hd : lookupS t.directories fi.directory_id with
  | none => rfl
  | some dir =>
      dsimp only
      cases hf : (if fi.id ≠ "" then lookupS dir.files fi.id else none) with
      | none => rfl
      | some f =>
          have hlk : lookupS dir.files fi.id = some f := by
            by_cases hid : fi.id ≠ ""
            · rw [if_pos hid] at hf; exact hf
            · rw [if_neg hid] at hf; cases hf
          have hnc := h fi.directory_id fi.id f (by simp [fileOf, hd, hlk])
          dsimp only
          rw [if_neg hnc]

theorem unlock_fold_noop {client : String} (l : List FileInfo) (t : StorageState)
    (h : ∀ d fid f, fileOf t d fid = some f → f.locked_by_client ≠ client) :
    l.foldl (unlockOne client) t = t := by
  induction l with
  | nil => rfl
  | cons fi rest ih => rw [List.foldl_cons, unlockOne_noop h fi]; exact ih

/-- C3 (counterexample): a file that is already write-locked by the client
and is addressed by the request only through its path (empty id) stays
write-locked by that client after `LockFilesForWrite` followed immediately by
`RollbackUpload`: the restored snapshot is itself locked, and the unlock loop
resolves files by id only, so it skips the path-only entry. -/
theorem rollback_leaves_lock_on_path_only_file :
    (fileOf
        (rollbackUpload "c"
          ⟨[{ id := "", directory_id := "d", current_path := "p", ftype := .FILE,
              deleted := false, content_changed := true, first_try_time := 3 }]⟩
          (lockFilesForWrite "c"
            ⟨[{ id := "", directory_id := "d", current_path := "p", ftype := .FILE,
                deleted := false, content_changed := true, first_try_time := 3 }]⟩ 7
            ⟨[("d", { id := "d",
                      files := [("f", { id := "f", directory_id := "d", version := 1,
                                        content_changed_version := 1, ftype := .FILE,
                                        current_path := "p", deleted := false,
                                        content := [], status := .BLOCKED,
                                        locked_by_client := "c", lock_time := 0,
                                        is_being_read := false,
                                        last_try := { time := 0, connection_id := "" } })],
                      path_to_id := [("p", "f")] })], []⟩)) "d" "f").map
      (fun f => (f.status, f.locked_by_client)) = some (FileStatus.BLOCKED, "c") := by
  rfl

/-- C3 (amended): after `LockFilesForWrite(client, request)` followed
immediately by `RollbackUpload(client, request)` — provided the client had no
backups entry and held no write lock beforehand, every record's
`directory_id` matches its directory key, and the request entries resolve to
pairwise distinct file ids — every file record is restored to its exact
pre-lock snapshot, the client's backups entry is absent, and no record is
write-locked by the client. -/
theorem rollback_restores_after_lock (client : String) (req : AskVersionIncrease)
    (now : Nat) (s : StorageState)
    (hb : lookupS s.backups client = none)
    (hlk : ∀ d fid f, fileOf s d fid = some f → f.locked_by_client ≠ client)
    (hwf : ∀ d fid f, fileOf s d fid = some f → f.directory_id = d)
    (hnd : (req.files.filterMap (resolvedFid s)).Nodup) :
    (∀ d fid, fileOf (rollbackUpload client req (lockFilesForWrite client req now s)) d fid
        = fileOf s d fid)
    ∧ lookupS (rollbackUpload client req (lockFilesForWrite client req now s)).backups client
        = none
    ∧ (∀ d fid f,
        fileOf (rollbackUpload client req (lockFilesForWrite client req now s)) d fid
          = some f →
        ¬ (f.status = FileStatus.BLOCKED ∧ f.locked_by_client = client)) := by
  have hInv0 : LockInv client now s s :=
    ⟨fun d => rfl, fun d fid => Or.inl rfl,
      fun bmap hbm => by rw [hb] at hbm; cases hbm⟩
  have hdisj0 : ∀ fi ∈ req.files, ∀ fid, resolvedFid s fi = some fid →
      ∀ bmap, lookupS s.backups client = some bmap → lookupS bmap fid = none := by
    intro fi _ fid _ bmap hbm
    rw [hb] at hbm
    cases hbm
  have hInvL : LockInv client now s (lockFilesForWrite client req now s) :=
    lock_fold_inv client now s hwf req.files s hInv0 hnd hdisj0
  unfold rollbackUpload
  cases hbm : lookupS (lockFilesForWrite client req now s).backups client with
  | none =>
      have hpt : ∀ d fid, fileOf (lockFilesForWrite client req now s) d fid
          = fileOf s d fid := by
        intro d fid
        rcases hInvL.2.1 d fid with h | ⟨f, _, _, _, bmap, hbm', _⟩
        · exact h
        · rw [hbm] at hbm'
          cases hbm'
      have hnl : ∀ d fid f, fileOf (lockFilesForWrite client req now s) d fid = some f →
          f.locked_by_client ≠ client := by
        intro d fid f hf
        rw [hpt d fid] at hf
        exact hlk d fid f hf
      rw [unlock_fold_noop req.files _ hnl]
      refine ⟨hpt, hbm, ?_⟩
      intro d fid f hf
      rw [hpt d fid] at hf
      rintro ⟨-, hc⟩
      exact hlk d fid f hf hc
  | some bmap =>
      have hcov : ∀ d fid, fileOf (lockFilesForWrite client req now s) d fid = fileOf s d fid
          ∨ ∃ f, (fid, f) ∈ bmap ∧ f.directory_id = d ∧ fileOf s d fid = some f := by
        intro d fid
        rcases hInvL.2.1 d fid with h | ⟨f, hsf, hdid, _, bmap', hbm', hlkb⟩
        · exact Or.inl h
        · rw [hbm] at hbm'
          cases hbm'
          exact Or.inr ⟨f, lookupS_mem hlkb, hdid, hsf⟩
      have hBs : ∀ e ∈ bmap, fileOf s e.2.directory_id e.1 = some e.2 :=
        fun e he => (hInvL.2.2 bmap hbm e he).1
      have hexB : ∀ e ∈ bmap,
          fileOf (lockFilesForWrite client req now s) e.2.directory_id e.1 ≠ none :=
        fun e he => (hInvL.2.2 bmap hbm e he).2
      have hrest := restoreAll_eq s bmap (lockFilesForWrite client req now s) hBs hexB hcov
      have hpt3 : ∀ d fid,
          fileOf
            { directories :=
                (List.foldl restoreBackup (lockFilesForWrite client req now s) bmap).directories,
              backups :=
                eraseS
                  (List.foldl restoreBackup (lockFilesForWrite client req now s) bmap).backups
                  client } d fid
            = fileOf s d fid := fun d fid => hrest d fid
      have hnl3 : ∀ d fid f,
          fileOf
            { directories :=
                (List.foldl restoreBackup (lockFilesForWrite client req now s) bmap).directories,
              backups :=
                eraseS
                  (List.foldl restoreBackup (lockFilesForWrite client req now s) bmap).backups
                  client } d fid
            = some f → f.locked_by_client ≠ client := by
        intro d fid f hf
        rw [hpt3 d fid] at hf
        exact hlk d fid f hf
      rw [unlock_fold_noop req.files _ hnl3]
      refine ⟨hpt3, lookupS_eraseS_self _ _, ?_⟩
      intro d fid f hf
      rw [hpt3 d fid] at hf
      rintro ⟨-, hc⟩
      exact hlk d fid f hf hc

/-- A lock-free state: no record is write-locked by the given client
(executable form). -/
def noClientLockB (client : String) (s : StorageState) : Bool :=
  s.directories.all fun e => e.2.files.all fun e2 =>
    decide (¬ (e2.2.locked_by_client = client))

theorem noClientLock_of_b {client : String} {s : StorageState}
    (h : noClientLockB client s = true) :
    ∀ d fid f, fileOf s d fid = some f → f.locked_by_client ≠ client := by
  intro d fid f hf
  cases hdir : lookupS s.directories d with
  | none => simp [fileOf, hdir] at hf
  | some dir =>
      simp only [fileOf, hdir, Option.some_bind] at hf
      have h1 := (List.all_eq_true.mp h) _ (lookupS_mem hdir)
      have h2 := (List.all_eq_true.mp h1) _ (lookupS_mem hf)
      simpa using h2

/-- Every record's `directory_id` names its containing directory (executable
form). -/
def dirIdOKB (s : StorageState) : Bool :=
  s.directories.all fun e => e.2.files.all fun e2 => decide (e2.2.directory_id = e.1)

theorem dirIdOK_of_b {s : StorageState} (h : dirIdOKB s = true) :
    ∀ d fid f, fileOf s d fid = some f → f.directory_id = d := by
  intro d fid f hf
  cases hdir : lookupS s.directories d with
  | none => simp [fileOf, hdir] at hf
  | some dir =>
      simp only [fileOf, hdir, Option.some_bind] at hf
      have h1 := (List.all_eq_true.mp h) _ (lookupS_mem hdir)
      have h2 := (List.all_eq_true.mp h1) _ (lookupS_mem hf)
      simpa using h2

/-- Concrete one-file state for the C3 witness. -/
def c3State : StorageState :=
  ⟨[("d", { id := "d",
            files := [("f", { id := "f", directory_id := "d", version := 3,
                              content_changed_version := 2, ftype := .FILE,
                              current_path := "p", deleted := false, content := [1],
                              status := .FREE, locked_by_client := "", lock_time := 0,
                              is_being_read := false,
                              last_try := { time := 5, connection_id := "x" } })],
            path_to_id := [("p", "f")] })], []⟩

/-- Concrete request for the C3 witness. -/
def c3Req : AskVersionIncrease :=
  ⟨[{ id := "f", directory_id := "d", current_path := "p", ftype := .FILE,
      deleted := false, content_changed := true, first_try_time := 6 }]⟩

/-- C3 (witness): the amended lock-then-rollback theorem applied to a
concrete one-file state and request. -/
theorem rollback_restores_after_lock_witness :
    (∀ d fid, fileOf (rollbackUpload "c" c3Req (lockFilesForWrite "c" c3Req 7 c3State)) d fid
        = fileOf c3State d fid)
    ∧ lookupS (rollbackUpload "c" c3Req (lockFilesForWrite "c" c3Req 7 c3State)).backups "c"
        = none
    ∧ (∀ d fid f,
        fileOf (rollbackUpload "c" c3Req (lockFilesForWrite "c" c3Req 7 c3State)) d fid
          = some f →
        ¬ (f.status = FileStatus.BLOCKED ∧ f.locked_by_client = "c")) :=
  rollback_restores_after_lock "c" c3Req 7 c3State rfl
    (noClientLock_of_b (by decide)) (dirIdOK_of_b (by decide)) (by decide)

/-! ## C10 — stray FILE_WRITE / FILE_WRITE_END messages -/

/-- C10: a FILE_WRITE or FILE_WRITE_END received while no pending upload
exists is ignored — no message is written to the stream, the storage state
(directories, records, locks, backups) is unchanged, and no pending upload
appears. -/
theorem fileWrite_without_pending_ignored (chunk : FileChunk) (now : Nat)
    (client : String) (fresh : Nat → String) (s : StorageState) :
    handleFileWrite chunk now none s = some (none, s, [])
      ∧ handleFileWriteEnd client fresh none s = (none, s, []) :=
  ⟨rfl, rfl⟩

/-! ## C6 — FILE_WRITE chunk placement -/

/-- C6 (code bug): the handler resizes the pending buffer only when
`offset ≥ length`, not to `max(length, offset + |data|)`. A first chunk
`(offset 0, 2 bytes)` succeeds; an overlapping second chunk
`(offset 1, 2 bytes)` leaves the 2-byte buffer unresized
(`resizeForChunk` is the identity here) and the copy runs one byte past its
end (`writeChunkToBuffer` reports the out-of-bounds copy), while the resize
to `max(len, offset+|data|)` demanded by the specification would have made
the copy fit. -/
theorem fileWrite_overlapping_chunk_out_of_bounds :
    handleFileWrite { id := "", directory_id := "d", current_path := "p",
                      offset := 0, data := [1, 2] } 5
        (some { request := ⟨[]⟩, file_contents := [], last_write_time := 0,
                received_first_write := false }) ⟨[], []⟩
      = some (some { request := ⟨[]⟩, file_contents := [("p", [1, 2])],
                     last_write_time := 5, received_first_write := true },
              ⟨[], []⟩, [])
    ∧ resizeForChunk [1, 2] 1 2 = [1, 2]
    ∧ writeChunkToBuffer [1, 2] 1 [3, 4] = none
    ∧ handleFileWrite { id := "", directory_id := "d", current_path := "p",
                        offset := 1, data := [3, 4] } 6
        (some { request := ⟨[]⟩, file_contents := [("p", [1, 2])],
                last_write_time := 5, received_first_write := true }) ⟨[], []⟩
      = none
    ∧ 1 + 2 ≤ max ([1, 2] : List Nat).length (1 + 2) := by
  refine ⟨rfl, rfl, rfl, rfl, by decide⟩

/-! ## C7 — order of the CHECK_VERSION reconciliation phases -/

/-- C7 (counterexample): with one server file that is older than its local
counterpart and one committed local file absent from the server listing, the
client runs the local-deletion phase *before* the upload phase, so the
claimed order (uploads before local deletions) does not hold. -/
theorem processCheckVersion_order_counterexample :
    processCheckVersionPhases
        [{ id := "a", directory_id := "d", version := 1, content_changed_version := 1,
           ftype := .FILE, current_path := "p", deleted := false }]
        [{ id := "a", directory_id := "d", version := 2, content_changed_version := 1,
           ftype := .FILE, current_path := "p", deleted := false },
         { id := "b", directory_id := "d", version := 1, content_changed_version := 1,
           ftype := .FILE, current_path := "q", deleted := false }]
      = [SyncPhase.deleteLocal, SyncPhase.upload]
    ∧ isSublist
        (processCheckVersionPhases
          [{ id := "a", directory_id := "d", version := 1, content_changed_version := 1,
             ftype := .FILE, current_path := "p", deleted := false }]
          [{ id := "a", directory_id := "d", version := 2, content_changed_version := 1,
             ftype := .FILE, current_path := "p", deleted := false },
           { id := "b", directory_id := "d", version := 1, content_changed_version := 1,
             ftype := .FILE, current_path := "q", deleted := false }])
        [SyncPhase.renameDelete, SyncPhase.download, SyncPhase.upload, SyncPhase.deleteLocal]
      = false := by
  exact ⟨rfl, rfl⟩

/-- C7 (amended): the diff of a CHECK_VERSION message is applied in the
order — rename/soft-delete metadata operations first (with the affected
absolute paths added to `files_being_written` before the operations and
removed after), then content downloads, then the local deletions, and last
the uploads for locally-newer files; each phase runs exactly when its diff
component is non-empty. -/
theorem processCheckVersion_order :
    (∀ sf lf : List FileMetadata,
        isSublist (processCheckVersionPhases sf lf)
          [SyncPhase.renameDelete, SyncPhase.download, SyncPhase.deleteLocal, SyncPhase.upload]
          = true
        ∧ ((SyncPhase.renameDelete ∈ processCheckVersionPhases sf lf) ↔
            (calculateVersionDiff sf lf).to_rename_delete ≠ [])
        ∧ ((SyncPhase.download ∈ processCheckVersionPhases sf lf) ↔
            (calculateVersionDiff sf lf).to_download ≠ [])
        ∧ ((SyncPhase.deleteLocal ∈ processCheckVersionPhases sf lf) ↔
            (calculateVersionDiff sf lf).to_delete_local ≠ [])
        ∧ ((SyncPhase.upload ∈ processCheckVersionPhases sf lf) ↔
            (calculateVersionDiff sf lf).to_upload ≠ []))
    ∧ (∀ (st : InMemoryStore) (dirId dirPath : String) (fs : List String)
          (files : List FileMetadata),
        affectedFiles st dirId dirPath fs files ≠ [] →
        applyRenamesAndDeletesTrace st dirId dirPath fs files =
          ClientEvent.blockPaths (affectedFiles st dirId dirPath fs files)
            :: ((applyRenamesAndDeletesOps st dirId dirPath fs files).1
                ++ [ClientEvent.unblockPaths (affectedFiles st dirId dirPath fs files)])) := by
  constructor
  · intro sf lf
    cases h1 : (calculateVersionDiff sf lf).to_rename_delete <;>
      cases h2 : (calculateVersionDiff sf lf).to_download <;>
        cases h3 : (calculateVersionDiff sf lf).to_delete_local <;>
          cases h4 : (calculateVersionDiff sf lf).to_upload <;>
            simp [processCheckVersionPhases, h1, h2, h3, h4, isSublist, List.isEmpty]
  · intro st dirId dirPath fs files h
    have h' : (affectedFiles st dirId dirPath fs files).isEmpty = false := by
      cases hc : affectedFiles st dirId dirPath fs files with
      | nil => exact absurd hc h
      | cons a as => simp [List.isEmpty]
    simp [applyRenamesAndDeletesTrace, h']

/-- C7 (witness): the amended order theorem applied to a concrete
reconciliation — a single soft-deleted server file whose local copy exists
on disk; the trace blocks the path, deletes it, upserts the record and
unblocks. -/
theorem processCheckVersion_order_witness :
    affectedFiles ⟨[]⟩ "d" "r" ["r/x"]
        [{ id := "f", directory_id := "d", version := 2, content_changed_version := 1,
           ftype := .FILE, current_path := "x", deleted := true }] ≠ []
    ∧ applyRenamesAndDeletesTrace ⟨[]⟩ "d" "r" ["r/x"]
        [{ id := "f", directory_id := "d", version := 2, content_changed_version := 1,
           ftype := .FILE, current_path := "x", deleted := true }] =
      ClientEvent.blockPaths ["r/x"]
        :: ([ClientEvent.backupAndDelete "r/x",
             ClientEvent.upsertLocal
               { id := "f", directory_id := "d", version := 2, content_changed_version := 1,
                 ftype := .FILE, current_path := "x", deleted := true }]
            ++ [ClientEvent.unblockPaths ["r/x"]]) := by
  refine ⟨by decide, ?_⟩
  have h := processCheckVersion_order.2 ⟨[]⟩ "d" "r" ["r/x"]
    [{ id := "f", directory_id := "d", version := 2, content_changed_version := 1,
       ftype := .FILE, current_path := "x", deleted := true }] (by decide)
  exact h.trans (by decide)

/-! ## C8 — path lookups and deleted records in the metadata store -/

/-- C8 (counterexample): after `UpsertFile` of a record with
`deleted = true`, `GetFileMetadata` by path returns that deleted record
(`ok`), not NotFound — the path mapping is installed unconditionally. -/
theorem getByPath_returns_deleted_record :
    (match upsertFile (registerDirectory ⟨[]⟩ "d" "/srv")
        { id := "f", directory_id := "d", version := 1, content_changed_version := 0,
          ftype := .FILE, current_path := "p", deleted := true } with
      | .ok st => getFileMetadataByPath st "d" "p"
      | .error e => .error e)
      = .ok { id := "f", directory_id := "d", version := 1, content_changed_version := 0,
              ftype := .FILE, current_path := "p", deleted := true }
    ∧ isNotFound
        (match upsertFile (registerDirectory ⟨[]⟩ "d" "/srv")
            { id := "f", directory_id := "d", version := 1, content_changed_version := 0,
              ftype := .FILE, current_path := "p", deleted := true } with
          | .ok st => getFileMetadataByPath st "d" "p"
          | .error e => .error e)
      = false := ⟨rfl, rfl⟩

/-- C8 (amended): `get_by_path` follows the path index alone: it returns
NotFound exactly when the directory is unknown or the index has no entry for
the path, and it returns whatever record the index points to regardless of
its `deleted` flag; in particular a record upserted with `deleted = true` is
still returned by a path lookup. -/
theorem getByPath_follows_path_index :
    (∀ (st : InMemoryStore) (dirId p : String),
        lookupS st.directories dirId = none →
        isNotFound (getFileMetadataByPath st dirId p) = true)
    ∧ (∀ (st : InMemoryStore) (dirId p : String) (dirInfo : DirectoryInfo),
        lookupS st.directories dirId = some dirInfo →
        (lookupS dirInfo.path_to_id p = none →
          isNotFound (getFileMetadataByPath st dirId p) = true)
        ∧ (∀ fid m, lookupS dirInfo.path_to_id p = some fid →
            lookupS dirInfo.files fid = some m →
            getFileMetadataByPath st dirId p = .ok m))
    ∧ (∀ (st st' : InMemoryStore) (m : FileMetadata),
        upsertFile st m = .ok st' →
        getFileMetadataByPath st' m.directory_id m.current_path = .ok m) := by
  refine ⟨?_, ?_, ?_⟩
  · intro st dirId p h
    simp [getFileMetadataByPath, h, isNotFound]
  · intro st dirId p dirInfo h
    constructor
    · intro hp
      simp [getFileMetadataByPath, h, hp, isNotFound]
    · intro fid m hp hm
      simp [getFileMetadataByPath, h, hp, hm]
  · intro st st' m h
    unfold upsertFile at h
    by_cases h1 : m.id = "" <;> simp [h1] at h
    by_cases h2 : m.directory_id = "" <;> simp [h2] at h
    cases hdir : lookupS st.directories m.directory_id with
    | none => simp [hdir] at h
    | some dirInfo =>
        simp only [hdir] at h
        cases h
        simp [getFileMetadataByPath, lookupS_insertS_self]

/-- C8 (witness): the amended characterisation applied to the concrete
deleted-record state: a lookup for an unindexed path is NotFound and the
upserted deleted record is found at its path. -/
theorem getByPath_follows_path_index_witness :
    isNotFound
        (getFileMetadataByPath
          ⟨[("d", { path := "/srv",
                    files := [("f", { id := "f", directory_id := "d", version := 1,
                                      content_changed_version := 0, ftype := .FILE,
                                      current_path := "p", deleted := true })],
                    path_to_id := [("p", "f")] })]⟩ "d" "zz")
      = true
    ∧ getFileMetadataByPath
        ⟨[("d", { path := "/srv",
                  files := [("f", { id := "f", directory_id := "d", version := 1,
                                    content_changed_version := 0, ftype := .FILE,
                                    current_path := "p", deleted := true })],
                  path_to_id := [("p", "f")] })]⟩ "d" "p"
      = .ok { id := "f", directory_id := "d", version := 1, content_changed_version := 0,
              ftype := .FILE, current_path := "p", deleted := true } := by
  constructor
  · exact (getByPath_follows_path_index.2.1
      ⟨[("d", { path := "/srv",
                files := [("f", { id := "f", directory_id := "d", version := 1,
                                  content_changed_version := 0, ftype := .FILE,
                                  current_path := "p", deleted := true })],
                path_to_id := [("p", "f")] })]⟩ "d" "zz"
      { path := "/srv",
        files := [("f", { id := "f", directory_id := "d", version := 1,
                          content_changed_version := 0, ftype := .FILE,
                          current_path := "p", deleted := true })],
        path_to_id := [("p", "f")] } (by decide)).1 (by decide)
  · exact getByPath_follows_path_index.2.2
      (registerDirectory ⟨[]⟩ "d" "/srv")
      ⟨[("d", { path := "/srv",
                files := [("f", { id := "f", directory_id := "d", version := 1,
                                  content_changed_version := 0, ftype := .FILE,
                                  current_path := "p", deleted := true })],
                path_to_id := [("p", "f")] })]⟩
      { id := "f", directory_id := "d", version := 1, content_changed_version := 0,
        ftype := .FILE, current_path := "p", deleted := true } (by rfl)

end SynXpo
